import Mathlib

/-!
Verification of the dice-poker core of `dice2_v3.py`: die physics and
rest detection (`Die.update`), hand scoring (`compute_hand`), side bets,
the collision resolution pass, and the round state machine
(`Game.start_round`, `Game.update`, `Game.toggle_hold_index`).

Python floats are modelled as exact rationals (`ℚ`); the wager stake
formula `math.ceil(bet * 0.10)` agrees with exact rational ceiling on
the whole wager range `10..9999`, so the rational model is faithful
there.  Randomness (`random.uniform`, `random.randint`, `random.random`,
`random.choice`) is modelled by explicit oracle arguments: each call
site reads one oracle component, and theorems quantify over all oracle
values, i.e. over every random stream.  Vector length
(`pygame.Vector2.length`, a square root) is not rational-valued, so the
collision pass takes the length function as an explicit parameter `len`;
theorems that depend on its meaning carry the defining hypothesis
`(len v)^2 = v.x^2 + v.y^2 ∧ 0 ≤ len v` at the vectors involved.
Disk persistence (`save_save`) and all rendering are I/O and are not
modelled.
-/

/-- 2-D vector with rational coordinates, modelling `pygame.Vector2`. -/
structure Vec2 where
  x : ℚ
  y : ℚ
deriving DecidableEq, Repr

instance : Add Vec2 := ⟨fun a b => ⟨a.x + b.x, a.y + b.y⟩⟩

instance : Sub Vec2 := ⟨fun a b => ⟨a.x - b.x, a.y - b.y⟩⟩

instance : Neg Vec2 := ⟨fun a => ⟨-a.x, -a.y⟩⟩

/-- Vector times scalar, as in `self.vel * dt`. -/
instance : HMul Vec2 ℚ Vec2 := ⟨fun v c => ⟨v.x * c, v.y * c⟩⟩

/-- Scalar times vector, as in `adjust * n`. -/
instance : HMul ℚ Vec2 Vec2 := ⟨fun c v => ⟨c * v.x, c * v.y⟩⟩

/-- Dot product, modelling `Vector2.dot`. -/
def Vec2.dot (a b : Vec2) : ℚ := a.x * b.x + a.y * b.y

/-- Linear interpolation, modelling `Vector2.lerp(target, k)`. -/
def Vec2.lerp (a b : Vec2) (k : ℚ) : Vec2 := a + (b - a) * k

/-! Configuration constants of `dice2_v3.py`. -/

def W : ℚ := 1000

def TABLE_Y : ℚ := 470

def DIE_SIZE : ℚ := 80

def GRAVITY : ℚ := 2200

def BOUNCE : ℚ := 0.35

def FRICTION : ℚ := 0.86

def AIR_DRAG : ℚ := 0.995

def SPIN_DRAG : ℚ := 0.99

def REST_EPS : ℚ := 35

def REST_FRAMES_REQUIRED : ℕ := 18

/-- Helper `clamp(value, lo, hi)` = `max(lo, min(hi, value))`. -/
def clamp (value lo hi : ℚ) : ℚ := max lo (min hi value)

/-- Easing function `ease_out_cubic`. -/
def ease_out_cubic (t : ℚ) : ℚ :=
  let t := clamp t 0 1
  1 - (1 - t)^3

/-! The `Die` physics object.  The rendering-only fields
(`base_surfaces`) are omitted; everything else is carried verbatim. -/

/-- State of one die (class `Die`). -/
structure Die where
  pos : Vec2
  vel : Vec2
  angle : ℚ
  spin : ℚ
  face : ℕ
  revealed : Bool
  rest_counter : ℕ
  hold : Bool
  radius : ℚ
  parked : Bool
  anim_active : Bool
  anim_t : ℚ
  anim_dur : ℚ
  anim_start : Vec2
  anim_end : Vec2
  anim_parked_end : Option Bool
  home_pos : Vec2
  slot_pos : Vec2
deriving DecidableEq, Repr

instance : Inhabited Die :=
  ⟨{ pos := ⟨0, 0⟩, vel := ⟨0, 0⟩, angle := 0, spin := 0, face := 1,
     revealed := false, rest_counter := 0, hold := false, radius := 0,
     parked := false, anim_active := false, anim_t := 0, anim_dur := 0,
     anim_start := ⟨0, 0⟩, anim_end := ⟨0, 0⟩, anim_parked_end := none,
     home_pos := ⟨0, 0⟩, slot_pos := ⟨0, 0⟩ }⟩

/-- Random draws consumed by `Die.reset_roll`: `random.uniform(-240, 240)`,
`random.uniform(0, 90)`, `random.uniform(0, 360)`, `random.uniform(-600, 600)`
and `random.randint(1, 6)`. -/
structure ResetOracle where
  vx : ℚ
  vy : ℚ
  angle : ℚ
  spin : ℚ
  face : ℕ

/-- Random draws that a single `Die.update` tick may consume: the settle
branch's `random.randint(1, 6)` and `random.choice([0, 90, 180, 270])`,
and the tumble branch's `random.random()` and `random.randint(1, 6)`. -/
structure TickOracle where
  settle_face : ℕ
  settle_angle : ℚ
  tumble_u : ℚ
  tumble_face : ℕ

/-- `Die.reset_roll(x, y)` with the random draws passed explicitly. -/
def Die.reset_roll (x y : ℚ) (o : ResetOracle) (d : Die) : Die :=
  { d with
    pos := ⟨x, y⟩
    vel := ⟨o.vx, o.vy⟩
    angle := o.angle
    spin := o.spin
    revealed := false
    rest_counter := 0
    face := o.face
    anim_active := false
    parked := false }

/-- `Die.start_anim(target, dur, parked_end)`. -/
def Die.start_anim (d : Die) (target : Vec2) (dur : ℚ) (parked_end : Option Bool) : Die :=
  { d with
    anim_active := true
    anim_t := 0
    anim_dur := max 0.001 dur
    anim_start := d.pos
    anim_end := target
    anim_parked_end := parked_end }

/-- `Die.update_anim(dt)`. -/
def Die.update_anim (dt : ℚ) (d : Die) : Die :=
  if d.anim_active = false then d
  else
    let d : Die := { d with anim_t := d.anim_t + dt }
    let t := d.anim_t / d.anim_dur
    let k := ease_out_cubic t
    let d : Die := { d with pos := d.anim_start.lerp d.anim_end k }
    if t ≥ 1 then
      { d with
        pos := d.anim_end
        anim_active := false
        parked := match d.anim_parked_end with | some b => b | none => d.parked
        anim_parked_end := none }
    else d

/-! `Die.update(dt)` (lines 371-431 of the source) is translated as a
composition of one helper per commented block of the source body, in
source order: gravity + position integration, wall bounces, drag,
table bounce, rest detection, the settle commit, and the tumble
redraw.  Sequential mutation inside a block is modelled by shadowed
`let d := ...` bindings. -/

/-- Gravity and position integration:
`self.vel.y += GRAVITY * dt; self.pos += self.vel * dt`. -/
def Die.integrate (dt : ℚ) (d : Die) : Die :=
  let d : Die := { d with vel := ⟨d.vel.x, d.vel.y + GRAVITY * dt⟩ }
  { d with pos := d.pos + d.vel * dt }

/-- Wall bounces: clamp to the wall and, when moving into it, reflect
`vel.x`, damp `vel.y` by `FRICTION` and the spin by `0.75`. -/
def Die.wall_bounce (d : Die) : Die :=
  let left_wall : ℚ := DIE_SIZE / 2
  let right_wall : ℚ := W - DIE_SIZE / 2
  if d.pos.x < left_wall then
    let d : Die := { d with pos := ⟨left_wall, d.pos.y⟩ }
    if d.vel.x < 0 then
      { d with vel := ⟨-d.vel.x * BOUNCE, d.vel.y * FRICTION⟩, spin := d.spin * 0.75 }
    else d
  else if d.pos.x > right_wall then
    let d : Die := { d with pos := ⟨right_wall, d.pos.y⟩ }
    if d.vel.x > 0 then
      { d with vel := ⟨-d.vel.x * BOUNCE, d.vel.y * FRICTION⟩, spin := d.spin * 0.75 }
    else d
  else d

/-- Drag and rotation advance:
`self.vel *= AIR_DRAG; self.spin *= SPIN_DRAG; self.angle += self.spin * dt`. -/
def Die.apply_drag (dt : ℚ) (d : Die) : Die :=
  let d : Die := { d with vel := d.vel * AIR_DRAG, spin := d.spin * SPIN_DRAG }
  { d with angle := d.angle + d.spin * dt }

/-- Bounce off the table: clamp to the ground line and, when moving
down, reflect `vel.y`, damp `vel.x` by `FRICTION` and the spin. -/
def Die.floor_bounce (d : Die) : Die :=
  let ground_y : ℚ := TABLE_Y - DIE_SIZE / 2
  if d.pos.y > ground_y then
    let d : Die := { d with pos := ⟨d.pos.x, ground_y⟩ }
    if d.vel.y > 0 then
      { d with vel := ⟨d.vel.x * FRICTION, -d.vel.y * BOUNCE⟩, spin := d.spin * 0.75 }
    else d
  else d

/-- Rest detection: both velocity components under `REST_EPS` and the
die at the floor line (within `0.1`) increments `rest_counter`,
anything else resets it. -/
def Die.rest_detect (d : Die) : Die :=
  let ground_y : ℚ := TABLE_Y - DIE_SIZE / 2
  if |d.vel.y| < REST_EPS ∧ |d.vel.x| < REST_EPS ∧ d.pos.y ≥ ground_y - 0.1 then
    { d with rest_counter := d.rest_counter + 1 }
  else { d with rest_counter := 0 }

/-- Settle: an un-revealed die whose counter reached
`REST_FRAMES_REQUIRED` commits `revealed`, draws the final face, stops
the spin and snaps the rotation. -/
def Die.settle (o : TickOracle) (d : Die) : Die :=
  if d.revealed = false ∧ REST_FRAMES_REQUIRED ≤ d.rest_counter then
    { d with revealed := true, face := o.settle_face, spin := 0, angle := o.settle_angle }
  else d

/-- Tumble: while still un-revealed, a 7% chance of redrawing the face. -/
def Die.tumble (o : TickOracle) (d : Die) : Die :=
  if d.revealed = false then
    if o.tumble_u < 0.07 then { d with face := o.tumble_face } else d
  else d

/-- The physics body of `Die.update`: the seven blocks in source order. -/
def Die.physics (dt : ℚ) (o : TickOracle) (d : Die) : Die :=
  Die.tumble o (Die.settle o (Die.rest_detect (Die.floor_bounce
    (Die.apply_drag dt (Die.wall_bounce (Die.integrate dt d))))))

/-- `Die.update(dt)`: animating dice only animate, parked dice are
inert, all others run the physics blocks. -/
def Die.update (dt : ℚ) (o : TickOracle) (d : Die) : Die :=
  if d.anim_active then d.update_anim dt
  else if d.parked then d
  else Die.physics dt o d

/-! Hand scoring. -/

/-- Payout table `PAYOUTS`, as `dict.get(name, 0)`. -/
def PAYOUTS (hand : String) : ℕ :=
  if hand = "three_kind" then 1
  else if hand = "straight" then 3
  else if hand = "full_house" then 5
  else if hand = "four_kind" then 7
  else if hand = "five_kind" then 10
  else 0

/-- Insert into a descending-sorted list. -/
def insertDesc (a : ℕ) : List ℕ → List ℕ
  | [] => [a]
  | b :: l => if a ≥ b then a :: b :: l else b :: insertDesc a l

/-- `sorted(xs, reverse=True)` on naturals (any correct sort agrees
extensionally with Python's on a total order with equal keys identical). -/
def sortDesc (l : List ℕ) : List ℕ := l.foldr insertDesc []

/-- Insert into an ascending-sorted list. -/
def insertAsc (a : ℕ) : List ℕ → List ℕ
  | [] => [a]
  | b :: l => if a ≤ b then a :: b :: l else b :: insertAsc a l

/-- `sorted(xs)` on naturals. -/
def sortAsc (l : List ℕ) : List ℕ := l.foldr insertAsc []

/-- The multiset of occurrence counts `counts.values()`.  Python's dict
preserves insertion order; since `compute_hand` only uses these values
after sorting, the enumeration order of the distinct faces is
irrelevant, and `dedup` provides one enumeration of them. -/
def counts_values (dice_faces : List ℕ) : List ℕ :=
  dice_faces.dedup.map (fun face => dice_faces.count face)

/-- `compute_hand(dice_faces)` (lines 470-492 of the source).  Python's
nested `if len(counts) == 5: if sorted_faces == ...` is flattened into a
conjunction; the fall-through behaviour is identical. -/
def compute_hand (dice_faces : List ℕ) : String × ℕ :=
  let sorted_counts := sortDesc (counts_values dice_faces)
  if sorted_counts.getD 0 0 = 5 then ("five_kind", PAYOUTS "five_kind")
  else if sorted_counts.getD 0 0 = 4 then ("four_kind", PAYOUTS "four_kind")
  else if sorted_counts.getD 0 0 = 3 ∧ sorted_counts.getD 1 0 = 2 then
    ("full_house", PAYOUTS "full_house")
  else if (counts_values dice_faces).length = 5 ∧
      (sortAsc dice_faces = [1, 2, 3, 4, 5] ∨ sortAsc dice_faces = [2, 3, 4, 5, 6]) then
    ("straight", PAYOUTS "straight")
  else if sorted_counts.getD 0 0 = 3 then ("three_kind", PAYOUTS "three_kind")
  else ("none", 0)

/-- `is_all_red(dice_faces)`: every face is in the red subset `{1, 4}`. -/
def is_all_red (dice_faces : List ℕ) : Bool :=
  dice_faces.all (fun face => face == 1 || face == 4)

/-- The hand rules as the specification states them (§4.3), written from
the spec's words to compare with `compute_hand`: five equal → five_kind;
exactly four equal → four_kind; three of one value and two of another →
full_house; all five distinct and sorting to `[1,2,3,4,5]` or
`[2,3,4,5,6]` → straight; exactly three equal → three_kind; else none;
with multipliers 10, 7, 5, 3, 1, 0. -/
def hand_spec (faces : List ℕ) : String × ℕ :=
  if faces.any (fun v => faces.count v == 5) then ("five_kind", 10)
  else if faces.any (fun v => faces.count v == 4) then ("four_kind", 7)
  else if faces.any (fun v => faces.count v == 3) &&
      faces.any (fun w => faces.count w == 2) then ("full_house", 5)
  else if faces.Nodup ∧ (sortAsc faces = [1, 2, 3, 4, 5] ∨ sortAsc faces = [2, 3, 4, 5, 6]) then
    ("straight", 3)
  else if faces.any (fun v => faces.count v == 3) then ("three_kind", 1)
  else ("none", 0)

/-! The `Game` round state machine.  UI widgets are flattened to the
fields that the game logic reads: `wager` is `self.wager.value` (kept in
`10..9999` by `WagerControl`), `side1_active`/`side2_active` are the
toggle states.  `state` is the Python state string. -/

/-- Round state (class `Game`). -/
structure Game where
  credit : ℤ
  wager : ℕ
  side1_active : Bool
  side2_active : Bool
  side1_stake : ℕ
  side2_stake : ℕ
  state : String
  message : String
  result_message : String
  dice : List Die
  dice_positions : List (ℚ × ℚ)
deriving DecidableEq, Repr

/-- The reset loop of `Game.start_round`: for each die in order, clear
`hold`/`parked`/`anim_active` and call `reset_roll(x, 100)` with that
die's start position. -/
def reset_dice (ro : ℕ → ResetOracle) (dice_positions : List (ℚ × ℚ)) :
    ℕ → List Die → List Die
  | _, [] => []
  | i, die :: rest =>
    let die : Die := { die with hold := false, parked := false, anim_active := false }
    let x := (dice_positions.getD i default).1
    Die.reset_roll x 100 (ro i) die :: reset_dice ro dice_positions (i + 1) rest

/-- `Game.start_round` (lines 614-640 of the source).  Note that the
side-bet stakes are assigned *before* the `total_cost` check, exactly as
in the source. -/
def Game.start_round (ro : ℕ → ResetOracle) (g : Game) : Game :=
  let bet := g.wager
  if (bet : ℤ) > g.credit then { g with message := "Insufficient credit for wager." }
  else
    let side_base : ℕ := max 5 ⌈(bet : ℚ) * 0.10⌉₊
    let s1 : ℕ := if g.side1_active then side_base else 0
    let s2 : ℕ := if g.side2_active then side_base else 0
    let total_cost := bet + s1 + s2
    let g : Game := { g with side1_stake := s1, side2_stake := s2 }
    if (total_cost : ℤ) > g.credit then
      { g with message := "Insufficient credit for wager and side bets." }
    else
      let g : Game := { g with credit := g.credit - total_cost }
      let g : Game := { g with dice := reset_dice ro g.dice_positions 0 g.dice }
      { g with result_message := "", state := "rolling1", message := "Rolling..." }

/-- `Game.all_dice_revealed`. -/
def Game.all_dice_revealed (g : Game) : Bool :=
  g.dice.all (fun die => die.revealed)

/-- `Game.all_anims_done`. -/
def Game.all_anims_done (g : Game) : Bool :=
  g.dice.all (fun d => !d.anim_active)

/-- `Game.toggle_hold_index(idx)` (lines 742-753 of the source).  The
index is a natural number, so only the upper bound of Python's
`0 <= idx < len(self.dice)` is checked. -/
def Game.toggle_hold_index (g : Game) (idx : ℕ) : Game :=
  if ¬ idx < g.dice.length then g
  else
    let die := g.dice.getD idx default
    if die.anim_active then g
    else
      let die : Die := { die with hold := !die.hold }
      if die.hold then
        { g with dice := g.dice.set idx (die.start_anim die.slot_pos 0.22 (some true)) }
      else
        let die : Die := { die with parked := false }
        { g with dice := g.dice.set idx (die.start_anim die.home_pos 0.22 (some false)) }

/-! Pairwise collision resolution (lines 654-677 of the source).  The
Python loop iterates over the `active` sub-list of die objects; mutation
through those references is modelled by indices into the evolving dice
list.  The `active` membership test is evaluated once, before the pair
loop, as in the source (and pair resolution never changes the flags it
tests anyway). -/

/-- Indices of dice that are neither parked nor mid-animation. -/
def active_indices (dice : List Die) : List ℕ :=
  (List.range dice.length).filter
    (fun k => !(dice.getD k default).parked && !(dice.getD k default).anim_active)

/-- All ordered pairs `(active[i], active[j])` with `i < j`, in the
order of the nested `for` loops. -/
def index_pairs : List ℕ → List (ℕ × ℕ)
  | [] => []
  | i :: rest => rest.map (fun j => (i, j)) ++ index_pairs rest

/-- Body of the pair loop: overlap test, symmetric positional
correction, and the conditional impulse.  `len` stands for
`Vector2.length`; `vec * (1 / dist)` is `vec.normalize()`. -/
def resolve_pair (len : Vec2 → ℚ) (di dj : Die) : Die × Die :=
  let vec := dj.pos - di.pos
  let dist := len vec
  if dist = 0 then (di, dj)
  else
    let d_min := di.radius + dj.radius
    if dist < d_min then
      let n : Vec2 := vec * (1 / dist)
      let overlap := d_min - dist
      let correction := overlap / 2
      let di : Die := { di with pos := di.pos - n * correction }
      let dj : Die := { dj with pos := dj.pos + n * correction }
      let rel_vel := di.vel - dj.vel
      let rel_vn := rel_vel.dot n
      if rel_vn < 0 then
        let adjust := (1 + BOUNCE) / 2 * rel_vn
        ({ di with vel := di.vel + adjust * n }, { dj with vel := dj.vel - adjust * n })
      else (di, dj)
    else (di, dj)

/-- One pair iteration on the dice list. -/
def collision_step (len : Vec2 → ℚ) (dice : List Die) (p : ℕ × ℕ) : List Die :=
  let r := resolve_pair len (dice.getD p.1 default) (dice.getD p.2 default)
  (dice.set p.1 r.1).set p.2 r.2

/-- The whole collision pass of `Game.update`. -/
def collision_pass (len : Vec2 → ℚ) (dice : List Die) : List Die :=
  (index_pairs (active_indices dice)).foldl (collision_step len) dice

/-- Guarded normalization: `Vector2.normalize()` raises on a zero-length
vector, modelled by `none`. -/
def vec_normalize? (len : Vec2 → ℚ) (v : Vec2) : Option Vec2 :=
  if len v = 0 then none else some ((v * (1 / len v) : Vec2))

/-- `resolve_pair` instrumented so that any attempt to normalize a
zero-length vector surfaces as `none`. -/
def resolve_pair? (len : Vec2 → ℚ) (di dj : Die) : Option (Die × Die) :=
  let vec := dj.pos - di.pos
  let dist := len vec
  if dist = 0 then some (di, dj)
  else
    let d_min := di.radius + dj.radius
    if dist < d_min then
      (vec_normalize? len vec).bind (fun n =>
        let overlap := d_min - dist
        let correction := overlap / 2
        let di : Die := { di with pos := di.pos - n * correction }
        let dj : Die := { dj with pos := dj.pos + n * correction }
        let rel_vel := di.vel - dj.vel
        let rel_vn := rel_vel.dot n
        if rel_vn < 0 then
          let adjust := (1 + BOUNCE) / 2 * rel_vn
          some ({ di with vel := di.vel + adjust * n }, { dj with vel := dj.vel - adjust * n })
        else some (di, dj))
    else some (di, dj)

/-- Instrumented pair loop. -/
def collision_pass_aux? (len : Vec2 → ℚ) : List (ℕ × ℕ) → List Die → Option (List Die)
  | [], dice => some dice
  | p :: ps, dice =>
    (resolve_pair? len (dice.getD p.1 default) (dice.getD p.2 default)).bind
      (fun r => collision_pass_aux? len ps ((dice.set p.1 r.1).set p.2 r.2))

/-- Instrumented collision pass:  `none` would mean some pair reached
the normalization of a zero-length vector. -/
def collision_pass? (len : Vec2 → ℚ) (dice : List Die) : Option (List Die) :=
  collision_pass_aux? len (index_pairs (active_indices dice)) dice

/-- The loop `for die in self.dice: die.update(dt)`, with each die
consuming its own slice of the random stream. -/
def update_each (dt : ℚ) (os : ℕ → TickOracle) : ℕ → List Die → List Die
  | _, [] => []
  | i, die :: rest => Die.update dt (os i) die :: update_each dt os (i + 1) rest

/-- End of `rolling1` in `Game.update`: evaluate the opening hand once
and resolve the one-roll side bet, then enter `hold` (source lines
682-692; `g.dice` are the already ticked dice). -/
def Game.resolve_rolling1 (g : Game) : Game :=
  let faces := g.dice.map (fun d => d.face)
  let hand := compute_hand faces
  let g : Game :=
    if 0 < g.side1_stake ∧ 0 < hand.2 then
      let pay := g.side1_stake * 5
      { g with credit := g.credit + (pay : ℤ),
               message := "Opening hand " ++ hand.1.replace "_" " " ++
                 "! One Roll pays " ++ toString pay ++ "." }
    else if 0 < g.side1_stake then
      { g with message := "Opening hand misses One Roll side bet." }
    else { g with message := "Click dice to hold, then Roll Again." }
  { g with state := "hold" }

/-- First block of the end of `rolling2`: final evaluation and main
payout (source lines 695-703).  The dice are untouched here, so
recomputing `faces` per block agrees with the single computation in
the source. -/
def Game.apply_main_payout (g : Game) : Game :=
  let faces := g.dice.map (fun d => d.face)
  let hand := compute_hand faces
  let bet := g.wager
  if 0 < hand.2 then
    let payout := bet * hand.2
    { g with credit := g.credit + (payout : ℤ),
             result_message := "Final hand: " ++ hand.1.replace "_" " " ++
               "! Payout " ++ toString payout ++ "." }
  else { g with result_message := "No winning hand." }

/-- Second block: the all-red side bet (source lines 705-712). -/
def Game.apply_all_red (g : Game) : Game :=
  let faces := g.dice.map (fun d => d.face)
  if 0 < g.side2_stake then
    if is_all_red faces then
      let ar_pay := g.side2_stake * 15
      { g with credit := g.credit + (ar_pay : ℤ),
               result_message := g.result_message ++ " All Red pays " ++
                 toString ar_pay ++ "." }
    else
      { g with result_message := g.result_message ++ " All Red side bet lost." }
  else g

/-- Third block: slide all dice into the top slots for the finish and
enter `presenting` (source lines 714-721). -/
def Game.present_slide (g : Game) : Game :=
  let g : Game :=
    { g with dice := g.dice.map (fun die => die.start_anim die.slot_pos 0.26 (some true)) }
  { g with state := "presenting", message := "Resolving..." }

/-- End of `rolling2` in `Game.update`: final evaluation, main payout,
all-red side bet, then the presentation slide-up (source lines
694-721).  The call `save_save(self.credit, self.settings)` is disk
I/O and is not modelled. -/
def Game.resolve_rolling2 (g : Game) : Game :=
  g.apply_main_payout.apply_all_red.present_slide

/-- `Game.update(dt)` (lines 648-733 of the source). -/
def Game.update (len : Vec2 → ℚ) (os : ℕ → TickOracle) (dt : ℚ) (g : Game) : Game :=
  if g.state = "rolling1" ∨ g.state = "rolling2" then
    -- update physics dice (held dice may be parked in slots)
    let g : Game := { g with dice := update_each dt os 0 g.dice }
    -- collisions only among non-parked dice
    let g : Game := { g with dice := collision_pass len g.dice }
    if g.all_dice_revealed then
      if g.state = "rolling1" then g.resolve_rolling1 else g.resolve_rolling2
    else g
  else if g.state = "presenting" then
    let g : Game := { g with dice := g.dice.map (Die.update_anim dt) }
    if g.all_anims_done then { g with state := "finished", message := "" }
    else g
  else
    -- still let any lingering anim finish (hold/unhold)
    { g with dice := g.dice.map (Die.update_anim dt) }

/-! Component lemmas for the vector operations. -/

@[simp] theorem Vec2.add_x (a b : Vec2) : (a + b).x = a.x + b.x := rfl

@[simp] theorem Vec2.add_y (a b : Vec2) : (a + b).y = a.y + b.y := rfl

@[simp] theorem Vec2.sub_x (a b : Vec2) : (a - b).x = a.x - b.x := rfl

@[simp] theorem Vec2.sub_y (a b : Vec2) : (a - b).y = a.y - b.y := rfl

@[simp] theorem Vec2.smul_x (a : Vec2) (c : ℚ) : (a * c).x = a.x * c := rfl

@[simp] theorem Vec2.smul_y (a : Vec2) (c : ℚ) : (a * c).y = a.y * c := rfl

@[simp] theorem Vec2.smul_x_left (c : ℚ) (a : Vec2) : (c * a).x = c * a.x := rfl

@[simp] theorem Vec2.smul_y_left (c : ℚ) (a : Vec2) : (c * a).y = c * a.y := rfl

@[simp] theorem Vec2.mk_x (a b : ℚ) : (Vec2.mk a b).x = a := rfl

@[simp] theorem Vec2.mk_y (a b : ℚ) : (Vec2.mk a b).y = b := rfl

/-- Two vectors are equal iff their components are. -/
theorem Vec2.ext_iff (a b : Vec2) : a = b ↔ a.x = b.x ∧ a.y = b.y := by
  constructor
  · rintro rfl; exact ⟨rfl, rfl⟩
  · rcases a with ⟨ax, ay⟩; rcases b with ⟨bx, by'⟩
    rintro ⟨h1, h2⟩; simp_all

/-! Preservation lemmas for the die tick: `update_anim`, `start_anim`
and the physics branch of `update` never clear `revealed`, and a
revealed die's face is left alone (the tumble redraw and the settle
draw are both guarded by `revealed` being false). -/

theorem Die.update_anim_keeps_face_revealed (dt : ℚ) (d : Die) :
    (Die.update_anim dt d).face = d.face ∧
      (Die.update_anim dt d).revealed = d.revealed := by
  simp only [Die.update_anim]
  split_ifs <;> exact ⟨rfl, rfl⟩

theorem Die.start_anim_keeps_face_revealed (d : Die) (target : Vec2) (dur : ℚ)
    (pe : Option Bool) :
    (Die.start_anim d target dur pe).face = d.face ∧
      (Die.start_anim d target dur pe).revealed = d.revealed := ⟨rfl, rfl⟩

/-- Shape of the bundle of fields untouched by the kinematic blocks. -/
def Die.kin_untouched (e d : Die) : Prop :=
  e.face = d.face ∧ e.revealed = d.revealed ∧ e.rest_counter = d.rest_counter ∧
    e.slot_pos = d.slot_pos ∧ e.home_pos = d.home_pos ∧ e.hold = d.hold ∧
    e.radius = d.radius ∧ e.parked = d.parked ∧ e.anim_active = d.anim_active

theorem Die.integrate_proj (dt : ℚ) (d : Die) :
    Die.kin_untouched (Die.integrate dt d) d :=
  ⟨rfl, rfl, rfl, rfl, rfl, rfl, rfl, rfl, rfl⟩

theorem Die.wall_bounce_proj (d : Die) :
    Die.kin_untouched (Die.wall_bounce d) d := by
  simp only [Die.wall_bounce, Die.kin_untouched]
  split_ifs <;> exact ⟨rfl, rfl, rfl, rfl, rfl, rfl, rfl, rfl, rfl⟩

theorem Die.apply_drag_proj (dt : ℚ) (d : Die) :
    Die.kin_untouched (Die.apply_drag dt d) d :=
  ⟨rfl, rfl, rfl, rfl, rfl, rfl, rfl, rfl, rfl⟩

theorem Die.floor_bounce_proj (d : Die) :
    Die.kin_untouched (Die.floor_bounce d) d := by
  simp only [Die.floor_bounce, Die.kin_untouched]
  split_ifs <;> exact ⟨rfl, rfl, rfl, rfl, rfl, rfl, rfl, rfl, rfl⟩

theorem Die.rest_detect_proj (d : Die) :
    (Die.rest_detect d).face = d.face ∧ (Die.rest_detect d).revealed = d.revealed ∧
      (Die.rest_detect d).pos = d.pos ∧ (Die.rest_detect d).vel = d.vel ∧
      (Die.rest_detect d).slot_pos = d.slot_pos ∧ (Die.rest_detect d).home_pos = d.home_pos ∧
      (Die.rest_detect d).parked = d.parked ∧ (Die.rest_detect d).anim_active = d.anim_active := by
  simp only [Die.rest_detect]
  split_ifs <;> exact ⟨rfl, rfl, rfl, rfl, rfl, rfl, rfl, rfl⟩

theorem Die.settle_proj (o : TickOracle) (d : Die) :
    (Die.settle o d).pos = d.pos ∧ (Die.settle o d).vel = d.vel ∧
      (Die.settle o d).rest_counter = d.rest_counter ∧
      (Die.settle o d).slot_pos = d.slot_pos ∧ (Die.settle o d).home_pos = d.home_pos ∧
      (Die.settle o d).parked = d.parked ∧ (Die.settle o d).anim_active = d.anim_active := by
  simp only [Die.settle]
  split_ifs <;> exact ⟨rfl, rfl, rfl, rfl, rfl, rfl, rfl⟩

theorem Die.settle_of_revealed (o : TickOracle) (d : Die) (h : d.revealed = true) :
    Die.settle o d = d := by
  simp [Die.settle, h]

theorem Die.tumble_proj (o : TickOracle) (d : Die) :
    (Die.tumble o d).pos = d.pos ∧ (Die.tumble o d).vel = d.vel ∧
      (Die.tumble o d).revealed = d.revealed ∧
      (Die.tumble o d).rest_counter = d.rest_counter ∧
      (Die.tumble o d).slot_pos = d.slot_pos ∧ (Die.tumble o d).home_pos = d.home_pos ∧
      (Die.tumble o d).parked = d.parked ∧ (Die.tumble o d).anim_active = d.anim_active := by
  simp only [Die.tumble]
  split_ifs <;> exact ⟨rfl, rfl, rfl, rfl, rfl, rfl, rfl, rfl⟩

theorem Die.tumble_of_revealed (o : TickOracle) (d : Die) (h : d.revealed = true) :
    Die.tumble o d = d := by
  simp [Die.tumble, h]

/-- A revealed die keeps `revealed` and its face through the physics
blocks: settle and tumble are no-ops on it, and the kinematic blocks
do not touch either field. -/
theorem Die.physics_of_revealed (dt : ℚ) (o : TickOracle) (d : Die)
    (h : d.revealed = true) :
    (Die.physics dt o d).revealed = true ∧ (Die.physics dt o d).face = d.face := by
  have hi := Die.integrate_proj dt d
  have hw := Die.wall_bounce_proj (Die.integrate dt d)
  have hd := Die.apply_drag_proj dt (Die.wall_bounce (Die.integrate dt d))
  have hf := Die.floor_bounce_proj (Die.apply_drag dt (Die.wall_bounce (Die.integrate dt d)))
  have hr := Die.rest_detect_proj (Die.floor_bounce (Die.apply_drag dt (Die.wall_bounce (Die.integrate dt d))))
  set d4 := Die.rest_detect (Die.floor_bounce (Die.apply_drag dt (Die.wall_bounce (Die.integrate dt d)))) with hd4
  unfold Die.kin_untouched at hi hw hd hf
  have hrev : d4.revealed = true := by
    rw [hr.2.1, hf.2.1, hd.2.1, hw.2.1, hi.2.1, h]
  have hface : d4.face = d.face := by
    rw [hr.1, hf.1, hd.1, hw.1, hi.1]
  have hs := Die.settle_of_revealed o d4 hrev
  have ht : Die.tumble o d4 = d4 := Die.tumble_of_revealed o d4 hrev
  simp only [Die.physics, ← hd4, hs, ht]
  exact ⟨hrev, hface⟩

theorem Die.update_of_revealed (dt : ℚ) (o : TickOracle) (d : Die)
    (h : d.revealed = true) :
    (Die.update dt o d).revealed = true ∧ (Die.update dt o d).face = d.face := by
  simp only [Die.update]
  split_ifs with h1 h2
  · have := Die.update_anim_keeps_face_revealed dt d
    exact ⟨by rw [this.2, h], this.1⟩
  · exact ⟨h, rfl⟩
  · exact Die.physics_of_revealed dt o d h

theorem Die.physics_keeps_slot (dt : ℚ) (o : TickOracle) (d : Die) :
    (Die.physics dt o d).slot_pos = d.slot_pos := by
  have hi := Die.integrate_proj dt d
  have hw := Die.wall_bounce_proj (Die.integrate dt d)
  have hd := Die.apply_drag_proj dt (Die.wall_bounce (Die.integrate dt d))
  have hf := Die.floor_bounce_proj (Die.apply_drag dt (Die.wall_bounce (Die.integrate dt d)))
  have hr := Die.rest_detect_proj (Die.floor_bounce (Die.apply_drag dt (Die.wall_bounce (Die.integrate dt d))))
  have hs := Die.settle_proj o (Die.rest_detect (Die.floor_bounce (Die.apply_drag dt (Die.wall_bounce (Die.integrate dt d)))))
  have ht := Die.tumble_proj o (Die.settle o (Die.rest_detect (Die.floor_bounce (Die.apply_drag dt (Die.wall_bounce (Die.integrate dt d))))))
  unfold Die.kin_untouched at hi hw hd hf
  simp only [Die.physics]
  rw [ht.2.2.2.2.1, hs.2.2.2.1, hr.2.2.2.2.1, hf.2.2.2.1, hd.2.2.2.1, hw.2.2.2.1, hi.2.2.2.1]

theorem Die.update_anim_keeps_slot (dt : ℚ) (d : Die) :
    (Die.update_anim dt d).slot_pos = d.slot_pos := by
  simp only [Die.update_anim]
  split_ifs <;> rfl

theorem Die.update_keeps_slot (dt : ℚ) (o : TickOracle) (d : Die) :
    (Die.update dt o d).slot_pos = d.slot_pos := by
  simp only [Die.update]
  split_ifs
  · exact Die.update_anim_keeps_slot dt d
  · rfl
  · exact Die.physics_keeps_slot dt o d

/-- Toggling hold on a die whose slide tween is active is rejected
before any mutation. -/
theorem Game.toggle_hold_mid_tween (g : Game) (idx : ℕ) (h : idx < g.dice.length)
    (ha : (g.dice.getD idx default).anim_active = true) :
    g.toggle_hold_index idx = g := by
  simp only [Game.toggle_hold_index]
  rw [if_neg (not_not_intro h), if_pos ha]

/-- C6: once `revealed` is true it stays true and the face stays fixed
through `Die.update` (so the tumble redraw never fires on a revealed
die), and also through `Die.update_anim` and `Die.start_anim`; only
`Die.reset_roll` starts a new roll with `revealed := false`. -/
theorem C6_revealed_face_monotone :
    (∀ (dt : ℚ) (o : TickOracle) (d : Die), d.revealed = true →
        (Die.update dt o d).revealed = true ∧ (Die.update dt o d).face = d.face) ∧
    (∀ (dt : ℚ) (d : Die),
        (Die.update_anim dt d).revealed = d.revealed ∧
          (Die.update_anim dt d).face = d.face) ∧
    (∀ (d : Die) (target : Vec2) (dur : ℚ) (pe : Option Bool),
        (Die.start_anim d target dur pe).revealed = d.revealed ∧
          (Die.start_anim d target dur pe).face = d.face) := by
  refine ⟨fun dt o d h => Die.update_of_revealed dt o d h, fun dt d => ?_, fun d t dur pe => ?_⟩
  · have := Die.update_anim_keeps_face_revealed dt d
    exact ⟨this.2, this.1⟩
  · have := Die.start_anim_keeps_face_revealed d t dur pe
    exact ⟨this.2, this.1⟩

/-- Witness for C6 at a concrete revealed die and oracle. -/
theorem C6_witness :
    (Die.update (1/60) ⟨3, 90, 0, 5⟩ { (default : Die) with revealed := true }).revealed = true ∧
      (Die.update (1/60) ⟨3, 90, 0, 5⟩ { (default : Die) with revealed := true }).face =
        ({ (default : Die) with revealed := true } : Die).face :=
  C6_revealed_face_monotone.1 (1/60) ⟨3, 90, 0, 5⟩ { (default : Die) with revealed := true } rfl

/-- C8: while a die's slide tween is active, any number of
`toggle_hold_index` calls on it is a no-op: no second tween is
started, the `hold` flag is unchanged, and the whole game state is
exactly as before. -/
theorem C8_toggle_hold_idempotent_mid_tween (g : Game) (idx : ℕ)
    (h : idx < g.dice.length) (ha : (g.dice.getD idx default).anim_active = true) :
    ∀ n : ℕ, (fun gx => Game.toggle_hold_index gx idx)^[n] g = g := by
  intro n
  induction n with
  | zero => rfl
  | succ n ih =>
    rw [Function.iterate_succ_apply', ih]
    exact Game.toggle_hold_mid_tween g idx h ha

/-- Witness for C8: two toggles on a concrete mid-tween die change
nothing. -/
theorem C8_witness :
    (fun gx => Game.toggle_hold_index gx 0)^[2]
        { credit := 250, wager := 10, side1_active := false, side2_active := false,
          side1_stake := 0, side2_stake := 0, state := "hold", message := "",
          result_message := "", dice := [{ (default : Die) with anim_active := true }],
          dice_positions := [(220, 160)] } =
      { credit := 250, wager := 10, side1_active := false, side2_active := false,
        side1_stake := 0, side2_stake := 0, state := "hold", message := "",
        result_message := "", dice := [{ (default : Die) with anim_active := true }],
        dice_positions := [(220, 160)] } :=
  C8_toggle_hold_idempotent_mid_tween
    { credit := 250, wager := 10, side1_active := false, side2_active := false,
      side1_stake := 0, side2_stake := 0, state := "hold", message := "",
      result_message := "", dice := [{ (default : Die) with anim_active := true }],
      dice_positions := [(220, 160)] } 0 (by decide) rfl 2

/-- C10: whenever the round actually starts (wager plus both computed
stakes fit in the balance), each enabled side bet is staked at exactly
`max(5, ceil(0.10 * wager))` and each disabled one at `0`, and the
phase moves to `rolling1`.  The wager bounds are those enforced by
`WagerControl`; on that range the exact rational ceiling agrees with
the source's floating-point `math.ceil(bet * 0.10)`. -/
theorem C10_side_stake_formula (g : Game) (ro : ℕ → ResetOracle)
    (h10 : 10 ≤ g.wager) (h9999 : g.wager ≤ 9999)
    (haff : (g.wager : ℤ) +
        ((if g.side1_active then (max 5 ⌈(g.wager : ℚ) * 0.10⌉₊ : ℕ) else 0) : ℕ) +
        ((if g.side2_active then (max 5 ⌈(g.wager : ℚ) * 0.10⌉₊ : ℕ) else 0) : ℕ) ≤ g.credit) :
    (g.start_round ro).side1_stake =
        (if g.side1_active then max 5 ⌈(g.wager : ℚ) * 0.10⌉₊ else 0) ∧
      (g.start_round ro).side2_stake =
        (if g.side2_active then max 5 ⌈(g.wager : ℚ) * 0.10⌉₊ else 0) ∧
      (g.start_round ro).state = "rolling1" := by
  have h1 : ¬ ((g.wager : ℤ) > g.credit) := by
    push_cast at haff ⊢
    omega
  have h2 : ¬ (((g.wager + (if g.side1_active then (max 5 ⌈(g.wager : ℚ) * 0.10⌉₊ : ℕ) else 0) +
      (if g.side2_active then (max 5 ⌈(g.wager : ℚ) * 0.10⌉₊ : ℕ) else 0) : ℕ) : ℤ) > g.credit) := by
    push_cast at haff ⊢
    omega
  simp only [Game.start_round]
  rw [if_neg h1, if_neg h2]
  exact ⟨rfl, rfl, rfl⟩

/-- Witness for C10: wager 250 with both side bets on against credit
1000 stakes each bet at 25. -/
theorem C10_witness :
    ((Game.start_round (fun _ => ⟨0, 0, 0, 0, 1⟩)
        { credit := 1000, wager := 250, side1_active := true, side2_active := true,
          side1_stake := 0, side2_stake := 0, state := "betting", message := "",
          result_message := "", dice := [], dice_positions := [] }).side1_stake = 25 ∧
      (Game.start_round (fun _ => ⟨0, 0, 0, 0, 1⟩)
        { credit := 1000, wager := 250, side1_active := true, side2_active := true,
          side1_stake := 0, side2_stake := 0, state := "betting", message := "",
          result_message := "", dice := [], dice_positions := [] }).side2_stake = 25 ∧
      (Game.start_round (fun _ => ⟨0, 0, 0, 0, 1⟩)
        { credit := 1000, wager := 250, side1_active := true, side2_active := true,
          side1_stake := 0, side2_stake := 0, state := "betting", message := "",
          result_message := "", dice := [], dice_positions := [] }).state = "rolling1") := by
  have h := C10_side_stake_formula
    { credit := 1000, wager := 250, side1_active := true, side2_active := true,
      side1_stake := 0, side2_stake := 0, state := "betting", message := "",
      result_message := "", dice := [], dice_positions := [] }
    (fun _ => ⟨0, 0, 0, 0, 1⟩) (by norm_num) (by norm_num)
    (by norm_num [Nat.ceil_eq_iff])
  simpa [show (250 : ℚ) * 0.10 = 25 by norm_num, Nat.ceil_ofNat] using h

/-- C1 as stated is false: when the wager alone fits in the balance
but wager plus stakes does not, `start_round` fails with the
insufficient-credit message but has already recomputed the side-bet
stake fields, so round state is mutated.  Concretely: credit 250,
wager 250, side bet 1 enabled, previous `side1_stake = 0`.  The total
cost 275 exceeds 250, yet after the failing call `side1_stake = 25`. -/
theorem C1_counterexample :
    ((250 : ℤ) + ((if true then (max 5 ⌈(250 : ℚ) * 0.10⌉₊ : ℕ) else 0) : ℕ) +
        ((if false then (max 5 ⌈(250 : ℚ) * 0.10⌉₊ : ℕ) else 0) : ℕ) > (250 : ℤ)) ∧
      (Game.start_round (fun _ => ⟨0, 0, 0, 0, 1⟩)
          { credit := 250, wager := 250, side1_active := true, side2_active := false,
            side1_stake := 0, side2_stake := 0, state := "betting", message := "",
            result_message := "", dice := [], dice_positions := [] }).side1_stake ≠
        (0 : ℕ) := by
  constructor
  · norm_num [Nat.ceil_eq_iff]
  · simp only [Game.start_round]
    norm_num [Nat.ceil_eq_iff]

/-- C1 amended: the failing call leaves credit, phase, dice, wager,
toggles, result message and dice positions unchanged and reports
InsufficientCredit; the side-bet stake fields, however, are recomputed
to their would-be values whenever the wager alone does not exceed the
balance (they are untouched when it does). -/
theorem C1_insufficient_credit_no_core_mutation (g : Game) (ro : ℕ → ResetOracle)
    (h : g.credit < (g.wager : ℤ) +
        ((if g.side1_active then (max 5 ⌈(g.wager : ℚ) * 0.10⌉₊ : ℕ) else 0) : ℕ) +
        ((if g.side2_active then (max 5 ⌈(g.wager : ℚ) * 0.10⌉₊ : ℕ) else 0) : ℕ)) :
    (g.start_round ro).credit = g.credit ∧
      (g.start_round ro).state = g.state ∧
      (g.start_round ro).dice = g.dice ∧
      (g.start_round ro).wager = g.wager ∧
      (g.start_round ro).side1_active = g.side1_active ∧
      (g.start_round ro).side2_active = g.side2_active ∧
      (g.start_round ro).result_message = g.result_message ∧
      (g.start_round ro).dice_positions = g.dice_positions ∧
      ((g.start_round ro).message = "Insufficient credit for wager." ∨
        (g.start_round ro).message = "Insufficient credit for wager and side bets.") ∧
      (g.start_round ro).side1_stake =
        (if (g.wager : ℤ) > g.credit then g.side1_stake
         else if g.side1_active then max 5 ⌈(g.wager : ℚ) * 0.10⌉₊ else 0) ∧
      (g.start_round ro).side2_stake =
        (if (g.wager : ℤ) > g.credit then g.side2_stake
         else if g.side2_active then max 5 ⌈(g.wager : ℚ) * 0.10⌉₊ else 0) := by
  simp only [Game.start_round]
  by_cases h1 : (g.wager : ℤ) > g.credit
  · rw [if_pos h1, if_pos h1, if_pos h1]
    exact ⟨rfl, rfl, rfl, rfl, rfl, rfl, rfl, rfl, Or.inl rfl, rfl, rfl⟩
  · have h2 : (((g.wager + (if g.side1_active then (max 5 ⌈(g.wager : ℚ) * 0.10⌉₊ : ℕ) else 0) +
        (if g.side2_active then (max 5 ⌈(g.wager : ℚ) * 0.10⌉₊ : ℕ) else 0) : ℕ) : ℤ) > g.credit) := by
      push_cast at h ⊢
      omega
    rw [if_neg h1, if_pos h2, if_neg h1, if_neg h1]
    exact ⟨rfl, rfl, rfl, rfl, rfl, rfl, rfl, rfl, Or.inr rfl, rfl, rfl⟩

/-- Witness for the amended C1 at the counterexample input. -/
theorem C1_witness :
    (Game.start_round (fun _ => ⟨0, 0, 0, 0, 1⟩)
        { credit := 250, wager := 250, side1_active := true, side2_active := false,
          side1_stake := 7, side2_stake := 9, state := "betting", message := "",
          result_message := "", dice := [], dice_positions := [] }).credit = 250 ∧
      (Game.start_round (fun _ => ⟨0, 0, 0, 0, 1⟩)
          { credit := 250, wager := 250, side1_active := true, side2_active := false,
            side1_stake := 7, side2_stake := 9, state := "betting", message := "",
            result_message := "", dice := [], dice_positions := [] }).state = "betting" ∧
      (Game.start_round (fun _ => ⟨0, 0, 0, 0, 1⟩)
          { credit := 250, wager := 250, side1_active := true, side2_active := false,
            side1_stake := 7, side2_stake := 9, state := "betting", message := "",
            result_message := "", dice := [], dice_positions := [] }).dice = [] := by
  have h := C1_insufficient_credit_no_core_mutation
    { credit := 250, wager := 250, side1_active := true, side2_active := false,
      side1_stake := 7, side2_stake := 9, state := "betting", message := "",
      result_message := "", dice := [], dice_positions := [] }
    (fun _ => ⟨0, 0, 0, 0, 1⟩) (by norm_num [Nat.ceil_eq_iff])
  exact ⟨h.1, h.2.1, h.2.2.1⟩

set_option maxHeartbeats 1000000 in
/-- Agreement of `compute_hand` with the spec's priority rules on the
`6^4` face tuples whose first die shows 1, checked by computation. -/
theorem compute_hand_agrees_t1 : ∀ b c d e : Fin 6,
    compute_hand [1, b.1 + 1, c.1 + 1, d.1 + 1, e.1 + 1] =
      hand_spec [1, b.1 + 1, c.1 + 1, d.1 + 1, e.1 + 1] := by decide

set_option maxHeartbeats 1000000 in
/-- The slice of the exhaustive check whose first die shows 2. -/
theorem compute_hand_agrees_t2 : ∀ b c d e : Fin 6,
    compute_hand [2, b.1 + 1, c.1 + 1, d.1 + 1, e.1 + 1] =
      hand_spec [2, b.1 + 1, c.1 + 1, d.1 + 1, e.1 + 1] := by decide

set_option maxHeartbeats 1000000 in
/-- The slice of the exhaustive check whose first die shows 3. -/
theorem compute_hand_agrees_t3 : ∀ b c d e : Fin 6,
    compute_hand [3, b.1 + 1, c.1 + 1, d.1 + 1, e.1 + 1] =
      hand_spec [3, b.1 + 1, c.1 + 1, d.1 + 1, e.1 + 1] := by decide

set_option maxHeartbeats 1000000 in
/-- The slice of the exhaustive check whose first die shows 4. -/
theorem compute_hand_agrees_t4 : ∀ b c d e : Fin 6,
    compute_hand [4, b.1 + 1, c.1 + 1, d.1 + 1, e.1 + 1] =
      hand_spec [4, b.1 + 1, c.1 + 1, d.1 + 1, e.1 + 1] := by decide

set_option maxHeartbeats 1000000 in
/-- The slice of the exhaustive check whose first die shows 5. -/
theorem compute_hand_agrees_t5 : ∀ b c d e : Fin 6,
    compute_hand [5, b.1 + 1, c.1 + 1, d.1 + 1, e.1 + 1] =
      hand_spec [5, b.1 + 1, c.1 + 1, d.1 + 1, e.1 + 1] := by decide

set_option maxHeartbeats 1000000 in
/-- The slice of the exhaustive check whose first die shows 6. -/
theorem compute_hand_agrees_t6 : ∀ b c d e : Fin 6,
    compute_hand [6, b.1 + 1, c.1 + 1, d.1 + 1, e.1 + 1] =
      hand_spec [6, b.1 + 1, c.1 + 1, d.1 + 1, e.1 + 1] := by decide

/-- Exhaustive agreement of `compute_hand` with the spec's priority
rules on all `6^5` face tuples, assembled from the six slices. -/
theorem compute_hand_agrees_on_tuples : ∀ a b c d e : Fin 6,
    compute_hand [a.1 + 1, b.1 + 1, c.1 + 1, d.1 + 1, e.1 + 1] =
      hand_spec [a.1 + 1, b.1 + 1, c.1 + 1, d.1 + 1, e.1 + 1] :=
  fun a => match a with
  | ⟨0, _⟩ => compute_hand_agrees_t1
  | ⟨1, _⟩ => compute_hand_agrees_t2
  | ⟨2, _⟩ => compute_hand_agrees_t3
  | ⟨3, _⟩ => compute_hand_agrees_t4
  | ⟨4, _⟩ => compute_hand_agrees_t5
  | ⟨5, _⟩ => compute_hand_agrees_t6
  | ⟨n + 6, h⟩ => absurd h (by omega)

/-- C2: on every list of five faces in `1..6`, `compute_hand` agrees
with the priority rules and multiplier table of §4.3 (`hand_spec`),
and it satisfies the six test vectors of §8. -/
theorem C2_hand_evaluator (faces : List ℕ) (h5 : faces.length = 5)
    (hr : ∀ f ∈ faces, 1 ≤ f ∧ f ≤ 6) :
    compute_hand faces = hand_spec faces ∧
      compute_hand [1, 1, 1, 1, 1] = ("five_kind", 10) ∧
      compute_hand [2, 2, 2, 3, 3] = ("full_house", 5) ∧
      compute_hand [1, 2, 3, 4, 5] = ("straight", 3) ∧
      compute_hand [2, 3, 4, 5, 6] = ("straight", 3) ∧
      compute_hand [1, 1, 1, 2, 3] = ("three_kind", 1) ∧
      compute_hand [1, 2, 3, 4, 6] = ("none", 0) := by
  refine ⟨?_, by decide, by decide, by decide, by decide, by decide, by decide⟩
  rcases faces with _ | ⟨a, _ | ⟨b, _ | ⟨c, _ | ⟨d, _ | ⟨e, rest⟩⟩⟩⟩⟩ <;>
    simp only [List.length_cons, List.length_nil] at h5 <;> try omega
  have hrest : rest = [] := by
    cases rest with
    | nil => rfl
    | cons f t => simp at h5
  subst hrest
  have ha := hr a (by simp)
  have hb := hr b (by simp)
  have hc := hr c (by simp)
  have hd := hr d (by simp)
  have he := hr e (by simp)
  have key := compute_hand_agrees_on_tuples
    ⟨a - 1, by omega⟩ ⟨b - 1, by omega⟩ ⟨c - 1, by omega⟩ ⟨d - 1, by omega⟩ ⟨e - 1, by omega⟩
  have e1 : a - 1 + 1 = a := by omega
  have e2 : b - 1 + 1 = b := by omega
  have e3 : c - 1 + 1 = c := by omega
  have e4 : d - 1 + 1 = d := by omega
  have e5 : e - 1 + 1 = e := by omega
  simp only [e1, e2, e3, e4, e5] at key
  exact key

/-- Witness for C2 at a concrete full house. -/
theorem C2_witness : compute_hand [3, 3, 4, 4, 3] = hand_spec [3, 3, 4, 4, 3] :=
  (C2_hand_evaluator [3, 3, 4, 4, 3] rfl (by decide)).1

@[simp] theorem Vec2.neg_x (a : Vec2) : (-a).x = -a.x := rfl

@[simp] theorem Vec2.neg_y (a : Vec2) : (-a).y = -a.y := rfl

/-- Characterization of `resolve_pair` on an overlapping pair with
non-negative relative normal velocity: only the symmetric positional
correction fires. -/
theorem resolve_pair_eq_of_sep (len : Vec2 → ℚ) (di dj : Die)
    (h0 : ¬ len (dj.pos - di.pos) = 0)
    (hlt : len (dj.pos - di.pos) < di.radius + dj.radius)
    (hge : ¬ (di.vel - dj.vel).dot ((dj.pos - di.pos) * (1 / len (dj.pos - di.pos))) < 0) :
    resolve_pair len di dj =
      ({ di with pos := di.pos - ((dj.pos - di.pos) * (1 / len (dj.pos - di.pos))) *
          ((di.radius + dj.radius - len (dj.pos - di.pos)) / 2) },
       { dj with pos := dj.pos + ((dj.pos - di.pos) * (1 / len (dj.pos - di.pos))) *
          ((di.radius + dj.radius - len (dj.pos - di.pos)) / 2) }) := by
  simp only [resolve_pair]
  rw [if_neg h0, if_pos hlt, if_neg hge]

/-- C5: an overlapping active pair at positive distance with closing
relative normal velocity is separated to exactly the sum of the radii,
each die moving half the overlap in opposite directions, and the
velocity changes applied to the two dice are equal in magnitude and
opposite in direction (here: the code applies its impulse only when
its `rel_vn` is negative, which for a closing pair is not the case, so
both velocity changes are zero). -/
theorem C5_collision_pair (len : Vec2 → ℚ) (di dj : Die)
    (hlen : (len (dj.pos - di.pos))^2 =
      (dj.pos - di.pos).x^2 + (dj.pos - di.pos).y^2)
    (hpos : 0 < len (dj.pos - di.pos))
    (hover : len (dj.pos - di.pos) < di.radius + dj.radius)
    (hclose : (dj.vel - di.vel).dot (dj.pos - di.pos) < 0) :
    ((resolve_pair len di dj).2.pos - (resolve_pair len di dj).1.pos).dot
        ((resolve_pair len di dj).2.pos - (resolve_pair len di dj).1.pos) =
      (di.radius + dj.radius)^2 ∧
    (resolve_pair len di dj).1.pos - di.pos = -((resolve_pair len di dj).2.pos - dj.pos) ∧
    ((resolve_pair len di dj).1.pos - di.pos).dot ((resolve_pair len di dj).1.pos - di.pos) =
      ((di.radius + dj.radius - len (dj.pos - di.pos)) / 2)^2 ∧
    (resolve_pair len di dj).1.vel - di.vel = -((resolve_pair len di dj).2.vel - dj.vel) := by
  have h0 : ¬ len (dj.pos - di.pos) = 0 := ne_of_gt hpos
  have hge : ¬ (di.vel - dj.vel).dot ((dj.pos - di.pos) * (1 / len (dj.pos - di.pos))) < 0 := by
    have hd : 0 < (di.vel - dj.vel).dot (dj.pos - di.pos) := by
      simp only [Vec2.dot, Vec2.sub_x, Vec2.sub_y] at hclose ⊢
      nlinarith [hclose]
    have : (di.vel - dj.vel).dot ((dj.pos - di.pos) * (1 / len (dj.pos - di.pos))) =
        ((di.vel - dj.vel).dot (dj.pos - di.pos)) * (1 / len (dj.pos - di.pos)) := by
      simp only [Vec2.dot, Vec2.sub_x, Vec2.sub_y, Vec2.smul_x, Vec2.smul_y]
      ring
    rw [this]
    push_neg
    positivity
  rw [resolve_pair_eq_of_sep len di dj h0 hover hge]
  simp only [Vec2.dot, Vec2.sub_x, Vec2.sub_y, Vec2.add_x, Vec2.add_y,
    Vec2.smul_x, Vec2.smul_y] at hlen ⊢
  refine ⟨?_, ?_, ?_, ?_⟩
  · field_simp
    first
      | linear_combination (4 * (di.radius + dj.radius)^2) * hlen
      | linear_combination (-(4 * (di.radius + dj.radius)^2)) * hlen
  · simp only [Vec2.ext_iff, Vec2.sub_x, Vec2.sub_y, Vec2.add_x, Vec2.add_y,
      Vec2.smul_x, Vec2.smul_y, Vec2.neg_x, Vec2.neg_y]
    constructor <;> (field_simp; ring)
  · field_simp
    first
      | linear_combination ((di.radius + dj.radius - len (dj.pos - di.pos))^2) * hlen
      | linear_combination (-((di.radius + dj.radius - len (dj.pos - di.pos))^2)) * hlen
      | linear_combination (((di.radius + dj.radius - len (dj.pos - di.pos))^2) / 4) * hlen
      | linear_combination (-(((di.radius + dj.radius - len (dj.pos - di.pos))^2) / 4)) * hlen
      | linear_combination (4 * ((di.radius + dj.radius - len (dj.pos - di.pos))^2)) * hlen
      | linear_combination (-(4 * ((di.radius + dj.radius - len (dj.pos - di.pos))^2))) * hlen
  · simp only [Vec2.ext_iff, Vec2.sub_x, Vec2.sub_y, Vec2.neg_x, Vec2.neg_y]
    constructor <;> ring

/-- Concrete length function for the collision witnesses: correct on
the one vector the witness pair produces. -/
def c5_len : Vec2 → ℚ := fun v => if v = ⟨3, 4⟩ then 5 else 0

/-- Witness die `i` for C5. -/
def c5_di : Die := { (default : Die) with pos := ⟨0, 0⟩, vel := ⟨0, 0⟩, radius := 3 }

/-- Witness die `j` for C5. -/
def c5_dj : Die := { (default : Die) with pos := ⟨3, 4⟩, vel := ⟨-3, -4⟩, radius := 4 }

/-- Witness for C5 at a 3-4-5 configuration with closing velocities. -/
theorem C5_witness :
    ((resolve_pair c5_len c5_di c5_dj).2.pos - (resolve_pair c5_len c5_di c5_dj).1.pos).dot
        ((resolve_pair c5_len c5_di c5_dj).2.pos - (resolve_pair c5_len c5_di c5_dj).1.pos) =
      (c5_di.radius + c5_dj.radius)^2 ∧
    (resolve_pair c5_len c5_di c5_dj).1.pos - c5_di.pos =
      -((resolve_pair c5_len c5_di c5_dj).2.pos - c5_dj.pos) ∧
    ((resolve_pair c5_len c5_di c5_dj).1.pos - c5_di.pos).dot
        ((resolve_pair c5_len c5_di c5_dj).1.pos - c5_di.pos) =
      ((c5_di.radius + c5_dj.radius - c5_len (c5_dj.pos - c5_di.pos)) / 2)^2 ∧
    (resolve_pair c5_len c5_di c5_dj).1.vel - c5_di.vel =
      -((resolve_pair c5_len c5_di c5_dj).2.vel - c5_dj.vel) :=
  C5_collision_pair c5_len c5_di c5_dj
    (by norm_num [c5_len, c5_di, c5_dj, Vec2.ext_iff])
    (by norm_num [c5_len, c5_di, c5_dj, Vec2.ext_iff])
    (by norm_num [c5_len, c5_di, c5_dj, Vec2.ext_iff])
    (by norm_num [c5_len, c5_di, c5_dj, Vec2.ext_iff, Vec2.dot])

/-- The instrumented pair resolution never fails: the zero-distance
guard runs strictly before the normalization. -/
theorem resolve_pair_checked_total (len : Vec2 → ℚ) (di dj : Die) :
    resolve_pair? len di dj = some (resolve_pair len di dj) := by
  simp only [resolve_pair?, resolve_pair, vec_normalize?]
  by_cases h0 : len (dj.pos - di.pos) = 0
  · rw [if_pos h0, if_pos h0]
  · rw [if_neg h0, if_neg h0, if_neg h0]
    simp only [Option.some_bind]
    split_ifs <;> rfl

/-- The instrumented pair loop never fails. -/
theorem collision_pass_aux_checked_total (len : Vec2 → ℚ) :
    ∀ (ps : List (ℕ × ℕ)) (dice : List Die),
      collision_pass_aux? len ps dice = some (ps.foldl (collision_step len) dice) := by
  intro ps
  induction ps with
  | nil => intro dice; rfl
  | cons p ps ih =>
    intro dice
    simp only [collision_pass_aux?, List.foldl_cons, resolve_pair_checked_total,
      Option.some_bind, collision_step]
    exact ih _

/-- C9: a pair at exactly zero centre distance is skipped before the
normal is computed (the pair is left untouched), and consequently the
instrumented collision pass — in which normalizing a zero-length
vector surfaces as `none` — always succeeds, on every dice list and
every tick. -/
theorem C9_zero_distance_skipped :
    (∀ (len : Vec2 → ℚ) (di dj : Die), len (dj.pos - di.pos) = 0 →
        resolve_pair len di dj = (di, dj)) ∧
    (∀ (len : Vec2 → ℚ) (dice : List Die),
        collision_pass? len dice = some (collision_pass len dice)) := by
  constructor
  · intro len di dj h0
    simp only [resolve_pair]
    rw [if_pos h0]
  · intro len dice
    exact collision_pass_aux_checked_total len _ dice

/-- Witness for C9: a coincident pair is skipped, and the checked pass
on a two-dice list succeeds. -/
theorem C9_witness :
    resolve_pair c5_len c5_di c5_di = (c5_di, c5_di) ∧
      collision_pass? c5_len [c5_di, c5_dj] = some (collision_pass c5_len [c5_di, c5_dj]) :=
  ⟨C9_zero_distance_skipped.1 c5_len c5_di c5_di
    (by norm_num [c5_len, c5_di, Vec2.ext_iff]),
   C9_zero_distance_skipped.2 c5_len [c5_di, c5_dj]⟩

/-! Plumbing for the rolling-phase resolution claims: the die tick on a
revealed die and the collision pass never change the face, the
revealed flag or the slot position of any die. -/


theorem all_map_eq {α β : Type _} (l : List α) (f : α → β) (p : β → Bool) :
    (l.map f).all p = l.all (fun a => p (f a)) := by
  induction l with
  | nil => rfl
  | cons a l ih => simp [ih]

/-- The (face, revealed, slot) fingerprint of a die. -/
def die_tag (d : Die) : ℕ × Bool × Vec2 := (d.face, d.revealed, d.slot_pos)

theorem getD_map_eq {α β : Type _} (f : α → β) (dflt : α) :
    ∀ (l : List α) (i : ℕ), (l.map f).getD i (f dflt) = f (l.getD i dflt)
  | [], _ => rfl
  | _ :: _, 0 => rfl
  | _ :: l, i + 1 => getD_map_eq f dflt l i

theorem map_set_eq_of_proj {α β : Type _} (f : α → β) (dflt : α) :
    ∀ (l : List α) (i : ℕ) (a : α), f a = f (l.getD i dflt) →
      (l.set i a).map f = l.map f
  | [], _, _, _ => rfl
  | b :: l, 0, a, h => by simp_all [List.getD]
  | b :: l, i + 1, a, h => by
    simp only [List.set_cons_succ, List.map_cons, List.cons.injEq]
    exact ⟨by trivial, map_set_eq_of_proj f dflt l i a (by simpa [List.getD] using h)⟩

theorem resolve_pair_tags (len : Vec2 → ℚ) (di dj : Die) :
    die_tag (resolve_pair len di dj).1 = die_tag di ∧
      die_tag (resolve_pair len di dj).2 = die_tag dj := by
  simp only [resolve_pair]
  split_ifs <;> exact ⟨rfl, rfl⟩

theorem collision_step_tags (len : Vec2 → ℚ) (dice : List Die) (p : ℕ × ℕ) :
    (collision_step len dice p).map die_tag = dice.map die_tag := by
  have h := resolve_pair_tags len (dice.getD p.1 default) (dice.getD p.2 default)
  simp only [collision_step]
  have h1 : (dice.set p.1 (resolve_pair len (dice.getD p.1 default) (dice.getD p.2 default)).1).map die_tag
      = dice.map die_tag :=
    map_set_eq_of_proj die_tag default dice p.1 _ h.1
  have h2 : die_tag (resolve_pair len (dice.getD p.1 default) (dice.getD p.2 default)).2 =
      die_tag ((dice.set p.1 (resolve_pair len (dice.getD p.1 default) (dice.getD p.2 default)).1).getD p.2 default) := by
    rw [← getD_map_eq die_tag default, h1, getD_map_eq die_tag default, h.2]
  rw [map_set_eq_of_proj die_tag default _ p.2 _ h2, h1]

theorem foldl_collision_tags (len : Vec2 → ℚ) :
    ∀ (ps : List (ℕ × ℕ)) (dice : List Die),
      (ps.foldl (collision_step len) dice).map die_tag = dice.map die_tag := by
  intro ps
  induction ps with
  | nil => intro dice; rfl
  | cons p ps ih =>
    intro dice
    rw [List.foldl_cons, ih, collision_step_tags]

theorem collision_pass_tags (len : Vec2 → ℚ) (dice : List Die) :
    (collision_pass len dice).map die_tag = dice.map die_tag :=
  foldl_collision_tags len _ dice

theorem update_each_tags (dt : ℚ) (os : ℕ → TickOracle) :
    ∀ (i : ℕ) (dice : List Die), (∀ d ∈ dice, d.revealed = true) →
      (update_each dt os i dice).map die_tag = dice.map die_tag := by
  intro i dice
  induction dice generalizing i with
  | nil => intro _; rfl
  | cons d rest ih =>
    intro h
    have hd := h d (by simp)
    have h1 := Die.update_of_revealed dt (os i) d hd
    have h2 := Die.update_keeps_slot dt (os i) d
    simp only [update_each, List.map_cons]
    rw [ih (i + 1) (fun x hx => h x (by simp [hx]))]
    simp only [die_tag, h1.1, h1.2, h2, hd]

/-- Characterization of `Game.resolve_rolling1`. -/
theorem Game.resolve_rolling1_spec (g : Game) :
    (g.resolve_rolling1).credit =
        g.credit + (if 0 < g.side1_stake ∧ 0 < (compute_hand (g.dice.map (fun d => d.face))).2
          then (g.side1_stake * 5 : ℤ) else 0) ∧
      (g.resolve_rolling1).state = "hold" ∧
      (g.resolve_rolling1).dice = g.dice := by
  simp only [Game.resolve_rolling1]
  by_cases h1 : 0 < g.side1_stake ∧ 0 < (compute_hand (g.dice.map (fun d => d.face))).2
  · rw [if_pos h1, if_pos h1]
    exact ⟨by push_cast; ring, by trivial, by trivial⟩
  · rw [if_neg h1, if_neg h1]
    by_cases h2 : 0 < g.side1_stake
    · rw [if_pos h2]
      exact ⟨by push_cast; ring, by trivial, by trivial⟩
    · rw [if_neg h2]
      exact ⟨by push_cast; ring, by trivial, by trivial⟩

/-- C7: when `rolling1` ends with all five dice revealed, the opening
hand is evaluated and the credit balance gains exactly `stake * 5`
when the one-roll side bet has a positive stake and the opening hand's
multiplier is non-zero (and nothing otherwise); the phase becomes
`hold`. -/
theorem C7_rolling1_one_roll (len : Vec2 → ℚ) (os : ℕ → TickOracle) (dt : ℚ) (g : Game)
    (hstate : g.state = "rolling1")
    (hrev : ∀ d ∈ g.dice, d.revealed = true) :
    (Game.update len os dt g).credit =
        g.credit +
          (if 0 < g.side1_stake ∧ 0 < (compute_hand (g.dice.map (fun d => d.face))).2
            then (g.side1_stake * 5 : ℤ) else 0) ∧
      (Game.update len os dt g).state = "hold" := by
  have t1 : (update_each dt os 0 g.dice).map die_tag = g.dice.map die_tag :=
    update_each_tags dt os 0 g.dice hrev
  have t2 : (collision_pass len (update_each dt os 0 g.dice)).map die_tag =
      g.dice.map die_tag := by
    rw [collision_pass_tags, t1]
  have hgall : g.dice.all (fun die => die.revealed) = true :=
    List.all_eq_true.mpr (fun d hd => hrev d hd)
  have hall : (collision_pass len (update_each dt os 0 g.dice)).all
      (fun die => die.revealed) = true := by
    have h : ((collision_pass len (update_each dt os 0 g.dice)).map die_tag).all
          (fun t => t.2.1) = (g.dice.map die_tag).all (fun t => t.2.1) := by rw [t2]
    rw [all_map_eq, all_map_eq] at h
    exact h.trans hgall
  have hfaces : (collision_pass len (update_each dt os 0 g.dice)).map (fun d => d.face) =
      g.dice.map (fun d => d.face) := by
    have h : ((collision_pass len (update_each dt os 0 g.dice)).map die_tag).map
          (fun t => t.1) = (g.dice.map die_tag).map (fun t => t.1) := by rw [t2]
    rw [List.map_map, List.map_map] at h
    exact h
  have hspec := Game.resolve_rolling1_spec
    { g with dice := collision_pass len (update_each dt os 0 g.dice) }
  simp only [Game.update, Game.all_dice_revealed]
  rw [if_pos (Or.inl hstate)]
  rw [if_pos hall, if_pos hstate]
  refine ⟨?_, hspec.2.1⟩
  rw [hspec.1]
  simp only [hfaces]

/-- The main-payout block adds `wager * multiplier` to the balance when
the multiplier is positive and touches neither dice nor side stakes. -/
theorem Game.apply_main_payout_proj (g : Game) :
    (g.apply_main_payout).credit =
        g.credit +
          (if 0 < (compute_hand (g.dice.map (fun d => d.face))).2
            then (g.wager * (compute_hand (g.dice.map (fun d => d.face))).2 : ℤ) else 0) ∧
      (g.apply_main_payout).dice = g.dice ∧
      (g.apply_main_payout).side2_stake = g.side2_stake := by
  simp only [Game.apply_main_payout]
  split_ifs with h1 <;> dsimp only <;>
    refine ⟨?_, by trivial, by trivial⟩
  · push_cast; ring1
  · ring1

/-- The all-red block adds `stake * 15` exactly when the stake is
positive and every face is red, and touches no dice. -/
theorem Game.apply_all_red_proj (g : Game) :
    (g.apply_all_red).credit =
        g.credit +
          (if 0 < g.side2_stake ∧ is_all_red (g.dice.map (fun d => d.face)) = true
            then (g.side2_stake * 15 : ℤ) else 0) ∧
      (g.apply_all_red).dice = g.dice := by
  simp only [Game.apply_all_red]
  split_ifs with h1 h2 h3 h3 h3 <;> (try dsimp only at *) <;>
    refine ⟨?_, by trivial⟩ <;>
    first
      | (push_cast; ring1)
      | (exfalso; tauto)

/-- The presentation block keeps the balance, enters `presenting` and
starts a slide on every die towards its slot. -/
theorem Game.present_slide_proj (g : Game) :
    (g.present_slide).credit = g.credit ∧
      (g.present_slide).state = "presenting" ∧
      (g.present_slide).dice.map (fun d => (d.anim_active, d.anim_end)) =
        g.dice.map (fun d => (true, d.slot_pos)) := by
  refine ⟨rfl, rfl, ?_⟩
  simp only [Game.present_slide]
  rw [List.map_map]; rfl

/-- Characterization of `Game.resolve_rolling2`: main payout when the
multiplier is positive, all-red side payout exactly when the stake is
positive and every face is red, a slide started on every die towards
its slot, and the phase set to `presenting`. -/
theorem Game.resolve_rolling2_spec (g : Game) :
    (g.resolve_rolling2).credit =
        g.credit +
          (if 0 < (compute_hand (g.dice.map (fun d => d.face))).2
            then (g.wager * (compute_hand (g.dice.map (fun d => d.face))).2 : ℤ) else 0) +
          (if 0 < g.side2_stake ∧ is_all_red (g.dice.map (fun d => d.face)) = true
            then (g.side2_stake * 15 : ℤ) else 0) ∧
      (g.resolve_rolling2).state = "presenting" ∧
      (g.resolve_rolling2).dice.map (fun d => (d.anim_active, d.anim_end)) =
        g.dice.map (fun d => (true, d.slot_pos)) := by
  obtain ⟨m1, m2, m3⟩ := Game.apply_main_payout_proj g
  obtain ⟨a1, a2⟩ := Game.apply_all_red_proj g.apply_main_payout
  obtain ⟨p1, p2, p3⟩ := Game.present_slide_proj g.apply_main_payout.apply_all_red
  rw [m2, m3] at a1
  rw [a2, m2] at p3
  simp only [Game.resolve_rolling2]
  exact ⟨by rw [p1, a1, m1], p2, p3⟩

/-- C3: when `rolling2` ends with all five dice revealed, the balance
gains `wager * multiplier` exactly when the final hand's multiplier is
positive, and additionally gains `stake * 15` exactly when the all-red
side bet has a positive stake and every face is in the red subset
`{1, 4}`; every die then starts a slide towards its presentation slot
and the phase becomes `presenting`. -/
theorem C3_rolling2_resolution (len : Vec2 → ℚ) (os : ℕ → TickOracle) (dt : ℚ) (g : Game)
    (hstate : g.state = "rolling2")
    (hrev : ∀ d ∈ g.dice, d.revealed = true) :
    (Game.update len os dt g).credit =
        g.credit +
          (if 0 < (compute_hand (g.dice.map (fun d => d.face))).2
            then (g.wager * (compute_hand (g.dice.map (fun d => d.face))).2 : ℤ) else 0) +
          (if 0 < g.side2_stake ∧ is_all_red (g.dice.map (fun d => d.face)) = true
            then (g.side2_stake * 15 : ℤ) else 0) ∧
      (Game.update len os dt g).state = "presenting" ∧
      (Game.update len os dt g).dice.map (fun d => (d.anim_active, d.anim_end)) =
        g.dice.map (fun d => (true, d.slot_pos)) := by
  have t1 : (update_each dt os 0 g.dice).map die_tag = g.dice.map die_tag :=
    update_each_tags dt os 0 g.dice hrev
  have t2 : (collision_pass len (update_each dt os 0 g.dice)).map die_tag =
      g.dice.map die_tag := by
    rw [collision_pass_tags, t1]
  have hgall : g.dice.all (fun die => die.revealed) = true :=
    List.all_eq_true.mpr (fun d hd => hrev d hd)
  have hall : (collision_pass len (update_each dt os 0 g.dice)).all
      (fun die => die.revealed) = true := by
    have h : ((collision_pass len (update_each dt os 0 g.dice)).map die_tag).all
          (fun t => t.2.1) = (g.dice.map die_tag).all (fun t => t.2.1) := by rw [t2]
    rw [all_map_eq, all_map_eq] at h
    exact h.trans hgall
  have hfaces : (collision_pass len (update_each dt os 0 g.dice)).map (fun d => d.face) =
      g.dice.map (fun d => d.face) := by
    have h : ((collision_pass len (update_each dt os 0 g.dice)).map die_tag).map
          (fun t => t.1) = (g.dice.map die_tag).map (fun t => t.1) := by rw [t2]
    rw [List.map_map, List.map_map] at h
    exact h
  have hslots : (collision_pass len (update_each dt os 0 g.dice)).map
        (fun d => ((true : Bool), d.slot_pos)) =
      g.dice.map (fun d => ((true : Bool), d.slot_pos)) := by
    have h : ((collision_pass len (update_each dt os 0 g.dice)).map die_tag).map
          (fun t => ((true : Bool), t.2.2)) =
        (g.dice.map die_tag).map (fun t => ((true : Bool), t.2.2)) := by rw [t2]
    rw [List.map_map, List.map_map] at h
    exact h
  have hspec := Game.resolve_rolling2_spec
    { g with dice := collision_pass len (update_each dt os 0 g.dice) }
  have hnot1 : ¬ (g.state = "rolling1") := by rw [hstate]; decide
  simp only [Game.update, Game.all_dice_revealed]
  rw [if_pos (Or.inr hstate)]
  rw [if_pos hall, if_neg hnot1]
  refine ⟨?_, hspec.2.1, ?_⟩
  · rw [hspec.1]
    simp only [hfaces]
  · rw [hspec.2.2]
    exact hslots

/-- A revealed die with a given face, for the rolling-phase witnesses. -/
def rev_die (f : ℕ) : Die := { (default : Die) with revealed := true, face := f }

/-- Concrete game for the C7 witness: `rolling1`, all dice revealed
with faces `[1,1,1,2,3]` (three of a kind), one-roll stake 5. -/
def c7_game : Game :=
  { credit := 100, wager := 10, side1_active := true, side2_active := false,
    side1_stake := 5, side2_stake := 0, state := "rolling1", message := "",
    result_message := "", dice := [rev_die 1, rev_die 1, rev_die 1, rev_die 2, rev_die 3],
    dice_positions := [(220, 160), (340, 160), (460, 160), (580, 160), (700, 160)] }

/-- Concrete game for the C3 witness: `rolling2`, all dice revealed
with the all-red faces `[1,4,1,4,1]`, all-red stake 5. -/
def c3_game : Game :=
  { c7_game with
    state := "rolling2", side1_stake := 0, side2_active := true,
    side2_stake := 5, dice := [rev_die 1, rev_die 4, rev_die 1, rev_die 4, rev_die 1] }

/-- Witness for C7 at `c7_game`. -/
theorem C7_witness :
    (Game.update (fun _ => 0) (fun _ => ⟨1, 0, 1, 1⟩) (1/60) c7_game).credit =
        c7_game.credit +
          (if 0 < c7_game.side1_stake ∧
              0 < (compute_hand (c7_game.dice.map (fun d => d.face))).2
            then (c7_game.side1_stake * 5 : ℤ) else 0) ∧
      (Game.update (fun _ => 0) (fun _ => ⟨1, 0, 1, 1⟩) (1/60) c7_game).state = "hold" :=
  C7_rolling1_one_roll (fun _ => 0) (fun _ => ⟨1, 0, 1, 1⟩) (1/60) c7_game rfl
    (by
      intro d hd
      simp only [c7_game, rev_die, List.mem_cons, List.not_mem_nil, or_false] at hd
      rcases hd with rfl | rfl | rfl | rfl | rfl <;> rfl)

/-- Witness for C3 at `c3_game`. -/
theorem C3_witness :
    (Game.update (fun _ => 0) (fun _ => ⟨1, 0, 1, 1⟩) (1/60) c3_game).credit =
        c3_game.credit +
          (if 0 < (compute_hand (c3_game.dice.map (fun d => d.face))).2
            then (c3_game.wager * (compute_hand (c3_game.dice.map (fun d => d.face))).2 : ℤ)
            else 0) +
          (if 0 < c3_game.side2_stake ∧ is_all_red (c3_game.dice.map (fun d => d.face)) = true
            then (c3_game.side2_stake * 15 : ℤ) else 0) ∧
      (Game.update (fun _ => 0) (fun _ => ⟨1, 0, 1, 1⟩) (1/60) c3_game).state = "presenting" ∧
      (Game.update (fun _ => 0) (fun _ => ⟨1, 0, 1, 1⟩) (1/60) c3_game).dice.map
          (fun d => (d.anim_active, d.anim_end)) =
        c3_game.dice.map (fun d => (true, d.slot_pos)) :=
  C3_rolling2_resolution (fun _ => 0) (fun _ => ⟨1, 0, 1, 1⟩) (1/60) c3_game rfl
    (by
      intro d hd
      simp only [c3_game, c7_game, rev_die, List.mem_cons, List.not_mem_nil, or_false] at hd
      rcases hd with rfl | rfl | rfl | rfl | rfl <;> rfl)

/-! Termination of a die roll (claim C4).  The physics of one tick with
`dt = 1/60` is analysed through the staged blocks.  `die_energy` is the
discrete mechanical energy `vy^2/2 + g*(ground - y)`; the symplectic
ordering (gravity before the position update) makes it drop by exactly
`(g*dt)^2/2 = 6050/9` per airborne tick, bounces and drag only remove
more.  Once a floor contact happens at pre-drag speed at most 105 px/s
the die enters a "grounded" regime `y = ground`, `-g*dt < vy < 0`,
which is invariant and keeps `|vy| < 35`; horizontal speed decays by at
least the air-drag factor every tick, so the rest counter climbs from
tick 385 on and the die must reveal by tick 403 < 600. -/

/-- The kinematic part of one physics tick with `dt = 1/60`. -/
def Die.kin_step (d : Die) : Die :=
  Die.floor_bounce (Die.apply_drag (1/60) (Die.wall_bounce (Die.integrate (1/60) d)))

/-- Iterated `Die.update` at `dt = 1/60` along a random stream. -/
def run_die (os : ℕ → TickOracle) (d : Die) : ℕ → Die
  | 0 => d
  | n + 1 => Die.update (1/60) (os n) (run_die os d n)

/-- Discrete mechanical energy of a die (w.r.t. the ground line 430). -/
def die_energy (d : Die) : ℚ := d.vel.y^2 / 2 + 2200 * (430 - d.pos.y)

/-- The floor clamp fires during the next tick. -/
def die_contact (d : Die) : Prop := 430 < d.pos.y + (d.vel.y + 110/3) * (1/60)

instance : DecidablePred die_contact := fun d =>
  inferInstanceAs (Decidable (430 < d.pos.y + (d.vel.y + 110/3) * (1/60)))

/-- The grounded regime: on the floor line, small upward velocity. -/
def die_grounded (d : Die) : Prop := d.pos.y = 430 ∧ -(110/3) < d.vel.y ∧ d.vel.y < 0

/-! Per-stage kinematic lemmas. -/

theorem Die.integrate_vel_x (dt : ℚ) (d : Die) : (Die.integrate dt d).vel.x = d.vel.x := rfl

theorem Die.integrate_vel_y (dt : ℚ) (d : Die) :
    (Die.integrate dt d).vel.y = d.vel.y + GRAVITY * dt := rfl

theorem Die.integrate_pos_y (dt : ℚ) (d : Die) :
    (Die.integrate dt d).pos.y = d.pos.y + (d.vel.y + GRAVITY * dt) * dt := rfl

theorem Die.wall_bounce_pos_y (d : Die) : (Die.wall_bounce d).pos.y = d.pos.y := by
  simp only [Die.wall_bounce]
  split_ifs <;> rfl

theorem Die.wall_bounce_vel_y_cases (d : Die) :
    (Die.wall_bounce d).vel.y = d.vel.y ∨ (Die.wall_bounce d).vel.y = d.vel.y * FRICTION := by
  simp only [Die.wall_bounce]
  split_ifs <;> first | exact Or.inl rfl | exact Or.inr rfl

theorem Die.wall_bounce_vel_x_le (d : Die) : |(Die.wall_bounce d).vel.x| ≤ |d.vel.x| := by
  simp only [Die.wall_bounce, BOUNCE]
  split_ifs <;>
    first
      | exact le_refl _
      | (simp only [Vec2.mk_x, abs_mul, abs_neg]
         rw [show |(0.35 : ℚ)| = 0.35 by norm_num]
         nlinarith [abs_nonneg d.vel.x])

theorem Die.apply_drag_vel_x (dt : ℚ) (d : Die) :
    (Die.apply_drag dt d).vel.x = d.vel.x * AIR_DRAG := rfl

theorem Die.apply_drag_vel_y (dt : ℚ) (d : Die) :
    (Die.apply_drag dt d).vel.y = d.vel.y * AIR_DRAG := rfl

theorem Die.apply_drag_pos (dt : ℚ) (d : Die) : (Die.apply_drag dt d).pos = d.pos := rfl

theorem Die.floor_bounce_cases (d : Die) :
    (d.pos.y ≤ TABLE_Y - DIE_SIZE / 2 ∧ Die.floor_bounce d = d) ∨
    (TABLE_Y - DIE_SIZE / 2 < d.pos.y ∧ 0 < d.vel.y ∧
      Die.floor_bounce d = { d with
        pos := ⟨d.pos.x, TABLE_Y - DIE_SIZE / 2⟩,
        vel := ⟨d.vel.x * FRICTION, -d.vel.y * BOUNCE⟩, spin := d.spin * 0.75 }) ∨
    (TABLE_Y - DIE_SIZE / 2 < d.pos.y ∧ d.vel.y ≤ 0 ∧
      Die.floor_bounce d = { d with pos := ⟨d.pos.x, TABLE_Y - DIE_SIZE / 2⟩ }) := by
  simp only [Die.floor_bounce]
  split_ifs with h1 h2
  · exact Or.inr (Or.inl ⟨h1, h2, rfl⟩)
  · exact Or.inr (Or.inr ⟨h1, le_of_not_lt h2, rfl⟩)
  · exact Or.inl ⟨le_of_not_lt h1, rfl⟩

theorem Die.rest_detect_cases (d : Die) :
    ((|d.vel.y| < REST_EPS ∧ |d.vel.x| < REST_EPS ∧
        d.pos.y ≥ TABLE_Y - DIE_SIZE / 2 - 0.1) ∧
      Die.rest_detect d = { d with rest_counter := d.rest_counter + 1 }) ∨
    (¬ (|d.vel.y| < REST_EPS ∧ |d.vel.x| < REST_EPS ∧
        d.pos.y ≥ TABLE_Y - DIE_SIZE / 2 - 0.1) ∧
      Die.rest_detect d = { d with rest_counter := 0 }) := by
  simp only [Die.rest_detect]
  split_ifs with h1
  · exact Or.inl ⟨h1, rfl⟩
  · exact Or.inr ⟨h1, rfl⟩

theorem Die.settle_revealed_of_counter (o : TickOracle) (d : Die)
    (h : 18 ≤ d.rest_counter) : (Die.settle o d).revealed = true := by
  simp only [Die.settle]
  split_ifs with hs
  · rfl
  · cases hrev : d.revealed with
    | true => rfl
    | false => exact absurd ⟨hrev, h⟩ hs

/-! Transfer from `Die.update` to the kinematic step. -/

theorem Die.physics_as_kin (o : TickOracle) (d : Die) :
    Die.physics (1/60) o d =
      Die.tumble o (Die.settle o (Die.rest_detect (Die.kin_step d))) := rfl

theorem Die.update_eq_physics (o : TickOracle) (d : Die)
    (ha : d.anim_active = false) (hp : d.parked = false) :
    Die.update (1/60) o d = Die.physics (1/60) o d := by
  simp [Die.update, ha, hp]

theorem Die.update_pos_vel (o : TickOracle) (d : Die)
    (ha : d.anim_active = false) (hp : d.parked = false) :
    (Die.update (1/60) o d).pos = (Die.kin_step d).pos ∧
      (Die.update (1/60) o d).vel = (Die.kin_step d).vel := by
  rw [Die.update_eq_physics o d ha hp, Die.physics_as_kin]
  have hr := Die.rest_detect_proj (Die.kin_step d)
  have hs := Die.settle_proj o (Die.rest_detect (Die.kin_step d))
  have ht := Die.tumble_proj o (Die.settle o (Die.rest_detect (Die.kin_step d)))
  exact ⟨by rw [ht.1, hs.1, hr.2.2.1], by rw [ht.2.1, hs.2.1, hr.2.2.2.1]⟩

theorem Die.update_flags (o : TickOracle) (d : Die)
    (ha : d.anim_active = false) (hp : d.parked = false) :
    (Die.update (1/60) o d).anim_active = false ∧
      (Die.update (1/60) o d).parked = false := by
  rw [Die.update_eq_physics o d ha hp, Die.physics_as_kin]
  have hr := Die.rest_detect_proj (Die.kin_step d)
  have hs := Die.settle_proj o (Die.rest_detect (Die.kin_step d))
  have ht := Die.tumble_proj o (Die.settle o (Die.rest_detect (Die.kin_step d)))
  have h1 := Die.integrate_proj (1/60) d
  have h2 := Die.wall_bounce_proj (Die.integrate (1/60) d)
  have h3 := Die.apply_drag_proj (1/60) (Die.wall_bounce (Die.integrate (1/60) d))
  have h4 := Die.floor_bounce_proj (Die.apply_drag (1/60) (Die.wall_bounce (Die.integrate (1/60) d)))
  unfold Die.kin_untouched at h1 h2 h3 h4
  have hk : (Die.kin_step d).anim_active = false ∧ (Die.kin_step d).parked = false := by
    unfold Die.kin_step
    constructor
    · rw [h4.2.2.2.2.2.2.2.2, h3.2.2.2.2.2.2.2.2, h2.2.2.2.2.2.2.2.2, h1.2.2.2.2.2.2.2.2, ha]
    · rw [h4.2.2.2.2.2.2.2.1, h3.2.2.2.2.2.2.2.1, h2.2.2.2.2.2.2.2.1, h1.2.2.2.2.2.2.2.1, hp]
  constructor
  · rw [ht.2.2.2.2.2.2.2, hs.2.2.2.2.2.2, hr.2.2.2.2.2.2.2, hk.1]
  · rw [ht.2.2.2.2.2.2.1, hs.2.2.2.2.2.1, hr.2.2.2.2.2.2.1, hk.2]

theorem Die.update_rest_counter (o : TickOracle) (d : Die)
    (ha : d.anim_active = false) (hp : d.parked = false) :
    (Die.update (1/60) o d).rest_counter =
      (if |(Die.kin_step d).vel.y| < REST_EPS ∧ |(Die.kin_step d).vel.x| < REST_EPS ∧
          (Die.kin_step d).pos.y ≥ TABLE_Y - DIE_SIZE / 2 - 0.1
        then d.rest_counter + 1 else 0) := by
  rw [Die.update_eq_physics o d ha hp, Die.physics_as_kin]
  have hs := Die.settle_proj o (Die.rest_detect (Die.kin_step d))
  have ht := Die.tumble_proj o (Die.settle o (Die.rest_detect (Die.kin_step d)))
  rw [ht.2.2.2.1, hs.2.2.1]
  have h1 := Die.integrate_proj (1/60) d
  have h2 := Die.wall_bounce_proj (Die.integrate (1/60) d)
  have h3 := Die.apply_drag_proj (1/60) (Die.wall_bounce (Die.integrate (1/60) d))
  have h4 := Die.floor_bounce_proj (Die.apply_drag (1/60) (Die.wall_bounce (Die.integrate (1/60) d)))
  unfold Die.kin_untouched at h1 h2 h3 h4
  have hkc : (Die.kin_step d).rest_counter = d.rest_counter := by
    unfold Die.kin_step
    rw [h4.2.2.1, h3.2.2.1, h2.2.2.1, h1.2.2.1]
  rcases Die.rest_detect_cases (Die.kin_step d) with ⟨hc, he⟩ | ⟨hc, he⟩
  · rw [he, if_pos hc, hkc]
  · rw [he, if_neg hc]

theorem Die.update_revealed_of_counter (o : TickOracle) (d : Die)
    (ha : d.anim_active = false) (hp : d.parked = false)
    (h : 18 ≤ (Die.update (1/60) o d).rest_counter) :
    (Die.update (1/60) o d).revealed = true := by
  rw [Die.update_eq_physics o d ha hp, Die.physics_as_kin] at h ⊢
  have hs := Die.settle_proj o (Die.rest_detect (Die.kin_step d))
  have ht := Die.tumble_proj o (Die.settle o (Die.rest_detect (Die.kin_step d)))
  rw [ht.2.2.1]
  apply Die.settle_revealed_of_counter
  rw [ht.2.2.2.1, hs.2.2.1] at h
  exact h

/-! Kinematic bounds for one tick. -/

theorem ground_line_eq : TABLE_Y - DIE_SIZE / 2 = (430 : ℚ) := by
  norm_num [TABLE_Y, DIE_SIZE]

theorem gravity_dt_eq : GRAVITY * (1/60 : ℚ) = 110/3 := by
  norm_num [GRAVITY]

theorem Die.floor_bounce_vel_x_le (d : Die) :
    |(Die.floor_bounce d).vel.x| ≤ |d.vel.x| := by
  rcases Die.floor_bounce_cases d with ⟨_, he⟩ | ⟨_, _, he⟩ | ⟨_, _, he⟩ <;> rw [he] <;>
    first
      | exact le_refl _
      | (have h : |d.vel.x * FRICTION| ≤ |d.vel.x| := by
           rw [abs_mul, show |FRICTION| = (43/50 : ℚ) by norm_num [FRICTION]]
           nlinarith [abs_nonneg d.vel.x]
         exact h)

/-- Horizontal speed decays by at least the air-drag factor per tick. -/
theorem Die.kin_step_vel_x_le (d : Die) :
    |(Die.kin_step d).vel.x| ≤ (199/200) * |d.vel.x| := by
  unfold Die.kin_step
  calc |(Die.floor_bounce (Die.apply_drag (1/60) (Die.wall_bounce (Die.integrate (1/60) d)))).vel.x|
      ≤ |(Die.apply_drag (1/60) (Die.wall_bounce (Die.integrate (1/60) d))).vel.x| :=
        Die.floor_bounce_vel_x_le _
    _ = |(Die.wall_bounce (Die.integrate (1/60) d)).vel.x| * (199/200) := by
        rw [Die.apply_drag_vel_x, abs_mul, show |AIR_DRAG| = 199/200 by norm_num [AIR_DRAG]]
    _ ≤ |d.vel.x| * (199/200) := by
        have h := Die.wall_bounce_vel_x_le (Die.integrate (1/60) d)
        rw [Die.integrate_vel_x] at h
        nlinarith [abs_nonneg (Die.wall_bounce (Die.integrate (1/60) d)).vel.x]
    _ = (199/200) * |d.vel.x| := by ring

/-- The die never ends a tick below the table line. -/
theorem Die.kin_step_pos_y_le (d : Die) : (Die.kin_step d).pos.y ≤ 430 := by
  unfold Die.kin_step
  rcases Die.floor_bounce_cases (Die.apply_drag (1/60) (Die.wall_bounce (Die.integrate (1/60) d)))
    with ⟨hy, he⟩ | ⟨_, _, he⟩ | ⟨_, _, he⟩ <;> rw [he]
  · rw [ground_line_eq] at hy
    exact hy
  · norm_num [TABLE_Y, DIE_SIZE]
  · norm_num [TABLE_Y, DIE_SIZE]

/-- An airborne tick: no clamp, exact position update, energy drops by
at least `6050/9`. -/
theorem Die.kin_step_airborne (d : Die) (hnc : ¬ die_contact d) :
    (Die.kin_step d).pos.y = d.pos.y + (d.vel.y + 110/3) * (1/60) ∧
      die_energy (Die.kin_step d) ≤ die_energy d - 6050/9 := by
  have hdr_pos :
      (Die.apply_drag (1/60) (Die.wall_bounce (Die.integrate (1/60) d))).pos.y =
        d.pos.y + (d.vel.y + 110/3) * (1/60) := by
    have h1 : (Die.apply_drag (1/60) (Die.wall_bounce (Die.integrate (1/60) d))).pos =
        (Die.wall_bounce (Die.integrate (1/60) d)).pos := Die.apply_drag_pos _ _
    rw [h1, Die.wall_bounce_pos_y, Die.integrate_pos_y, gravity_dt_eq]
  have hnc2 : ¬ (TABLE_Y - DIE_SIZE / 2 <
      (Die.apply_drag (1/60) (Die.wall_bounce (Die.integrate (1/60) d))).pos.y) := by
    rw [hdr_pos, ground_line_eq]
    unfold die_contact at hnc
    exact hnc
  have hkin : Die.kin_step d =
      Die.apply_drag (1/60) (Die.wall_bounce (Die.integrate (1/60) d)) := by
    unfold Die.kin_step
    rcases Die.floor_bounce_cases
        (Die.apply_drag (1/60) (Die.wall_bounce (Die.integrate (1/60) d)))
      with ⟨_, he⟩ | ⟨hy, _, he⟩ | ⟨hy, _, he⟩
    · exact he
    · exact absurd hy hnc2
    · exact absurd hy hnc2
  have hvy : (Die.kin_step d).vel.y =
      (Die.wall_bounce (Die.integrate (1/60) d)).vel.y * AIR_DRAG := by
    rw [hkin, Die.apply_drag_vel_y]
  constructor
  · rw [hkin, hdr_pos]
  · rcases Die.wall_bounce_vel_y_cases (Die.integrate (1/60) d) with hw | hw <;>
      rw [Die.integrate_vel_y, gravity_dt_eq] at hw <;>
      unfold die_energy <;>
      rw [hkin, hdr_pos, Die.apply_drag_vel_y, hw] <;>
      rw [show AIR_DRAG = (199/200 : ℚ) by norm_num [AIR_DRAG]] <;>
      first
        | nlinarith [sq_nonneg (d.vel.y + 110/3)]
        | (rw [show FRICTION = (43/50 : ℚ) by norm_num [FRICTION]]
           nlinarith [sq_nonneg (d.vel.y + 110/3)])

/-- An airborne tick keeps a non-negative vertical speed and grows it
towards the terminal value: the new `vy` is at least
`0.8557 * (vy + 110/3)`. -/
theorem Die.kin_step_airborne_vy (d : Die) (hnc : ¬ die_contact d) (hvy : 0 ≤ d.vel.y) :
    (8557/10000) * (d.vel.y + 110/3) ≤ (Die.kin_step d).vel.y ∧
      0 ≤ (Die.kin_step d).vel.y := by
  have hdr_pos :
      (Die.apply_drag (1/60) (Die.wall_bounce (Die.integrate (1/60) d))).pos.y =
        d.pos.y + (d.vel.y + 110/3) * (1/60) := by
    have h1 : (Die.apply_drag (1/60) (Die.wall_bounce (Die.integrate (1/60) d))).pos =
        (Die.wall_bounce (Die.integrate (1/60) d)).pos := Die.apply_drag_pos _ _
    rw [h1, Die.wall_bounce_pos_y, Die.integrate_pos_y, gravity_dt_eq]
  have hnc2 : ¬ (TABLE_Y - DIE_SIZE / 2 <
      (Die.apply_drag (1/60) (Die.wall_bounce (Die.integrate (1/60) d))).pos.y) := by
    rw [hdr_pos, ground_line_eq]
    unfold die_contact at hnc
    exact hnc
  have hkin : Die.kin_step d =
      Die.apply_drag (1/60) (Die.wall_bounce (Die.integrate (1/60) d)) := by
    unfold Die.kin_step
    rcases Die.floor_bounce_cases
        (Die.apply_drag (1/60) (Die.wall_bounce (Die.integrate (1/60) d)))
      with ⟨_, he⟩ | ⟨hy, _, he⟩ | ⟨hy, _, he⟩
    · exact he
    · exact absurd hy hnc2
    · exact absurd hy hnc2
  rcases Die.wall_bounce_vel_y_cases (Die.integrate (1/60) d) with hw | hw <;>
    rw [Die.integrate_vel_y, gravity_dt_eq] at hw <;>
    rw [hkin, Die.apply_drag_vel_y, hw] <;>
    rw [show AIR_DRAG = (199/200 : ℚ) by norm_num [AIR_DRAG]] <;>
    first
      | constructor <;> nlinarith
      | (rw [show FRICTION = (43/50 : ℚ) by norm_num [FRICTION]]
         constructor <;> nlinarith)

/-- A contact tick: the die ends on the floor line with a small
upward velocity and the energy collapses to at most
`(49/400) * (vy + 110/3)^2 / 2`. -/
theorem Die.kin_step_contact (d : Die) (hy : d.pos.y ≤ 430) (hc : die_contact d) :
    (Die.kin_step d).pos.y = 430 ∧
      0 < d.vel.y + 110/3 ∧
      (Die.kin_step d).vel.y < 0 ∧
      -(1393/4000) * (d.vel.y + 110/3) ≤ (Die.kin_step d).vel.y ∧
      die_energy (Die.kin_step d) ≤ (49/400) * (d.vel.y + 110/3)^2 / 2 := by
  have hv1 : 0 < d.vel.y + 110/3 := by
    unfold die_contact at hc
    nlinarith
  have hdr_pos :
      (Die.apply_drag (1/60) (Die.wall_bounce (Die.integrate (1/60) d))).pos.y =
        d.pos.y + (d.vel.y + 110/3) * (1/60) := by
    have h1 : (Die.apply_drag (1/60) (Die.wall_bounce (Die.integrate (1/60) d))).pos =
        (Die.wall_bounce (Die.integrate (1/60) d)).pos := Die.apply_drag_pos _ _
    rw [h1, Die.wall_bounce_pos_y, Die.integrate_pos_y, gravity_dt_eq]
  have hc2 : TABLE_Y - DIE_SIZE / 2 <
      (Die.apply_drag (1/60) (Die.wall_bounce (Die.integrate (1/60) d))).pos.y := by
    rw [hdr_pos, ground_line_eq]
    unfold die_contact at hc
    exact hc
  have hdrvy : ∃ a : ℚ, ((a = 1 ∨ a = 43/50) ∧
      (Die.apply_drag (1/60) (Die.wall_bounce (Die.integrate (1/60) d))).vel.y =
        (d.vel.y + 110/3) * a * (199/200)) := by
    rcases Die.wall_bounce_vel_y_cases (Die.integrate (1/60) d) with hw | hw <;>
      rw [Die.integrate_vel_y, gravity_dt_eq] at hw
    · exact ⟨1, Or.inl rfl, by
        rw [Die.apply_drag_vel_y, hw, show AIR_DRAG = (199/200 : ℚ) by norm_num [AIR_DRAG]]
        try ring⟩
    · exact ⟨43/50, Or.inr rfl, by
        rw [Die.apply_drag_vel_y, hw, show AIR_DRAG = (199/200 : ℚ) by norm_num [AIR_DRAG],
          show FRICTION = (43/50 : ℚ) by norm_num [FRICTION]]
        try ring⟩
  obtain ⟨a, ha, hdr⟩ := hdrvy
  have hapos : 0 < a ∧ a ≤ 1 := by
    rcases ha with rfl | rfl <;> norm_num
  have hdrpos : 0 < (Die.apply_drag (1/60) (Die.wall_bounce (Die.integrate (1/60) d))).vel.y := by
    rw [hdr]
    nlinarith [hapos.1]
  have hkin : Die.kin_step d =
      { (Die.apply_drag (1/60) (Die.wall_bounce (Die.integrate (1/60) d))) with
        pos := ⟨(Die.apply_drag (1/60) (Die.wall_bounce (Die.integrate (1/60) d))).pos.x,
          TABLE_Y - DIE_SIZE / 2⟩,
        vel := ⟨(Die.apply_drag (1/60) (Die.wall_bounce (Die.integrate (1/60) d))).vel.x * FRICTION,
          -(Die.apply_drag (1/60) (Die.wall_bounce (Die.integrate (1/60) d))).vel.y * BOUNCE⟩,
        spin := (Die.apply_drag (1/60) (Die.wall_bounce (Die.integrate (1/60) d))).spin * 0.75 } := by
    unfold Die.kin_step
    rcases Die.floor_bounce_cases
        (Die.apply_drag (1/60) (Die.wall_bounce (Die.integrate (1/60) d)))
      with ⟨hyy, _⟩ | ⟨_, _, he⟩ | ⟨_, hv, _⟩
    · exact absurd hc2 (not_lt.mpr hyy)
    · exact he
    · exact absurd hdrpos (not_lt.mpr hv)
  have hpos430 : (Die.kin_step d).pos.y = 430 := by
    rw [hkin]
    show TABLE_Y - DIE_SIZE / 2 = (430 : ℚ)
    exact ground_line_eq
  have hvy : (Die.kin_step d).vel.y =
      -((d.vel.y + 110/3) * a * (199/200)) * BOUNCE := by
    rw [hkin]
    show -(Die.apply_drag (1/60) (Die.wall_bounce (Die.integrate (1/60) d))).vel.y * BOUNCE =
      -((d.vel.y + 110/3) * a * (199/200)) * BOUNCE
    rw [hdr]
  refine ⟨hpos430, hv1, ?_, ?_, ?_⟩
  · rw [hvy, show BOUNCE = (7/20 : ℚ) by norm_num [BOUNCE]]
    nlinarith [hapos.1]
  · rw [hvy, show BOUNCE = (7/20 : ℚ) by norm_num [BOUNCE]]
    nlinarith [hapos.1, hapos.2]
  · unfold die_energy
    rw [hvy, hpos430, show BOUNCE = (7/20 : ℚ) by norm_num [BOUNCE]]
    rcases ha with rfl | rfl <;> nlinarith [sq_nonneg (d.vel.y + 110/3)]

/-- The grounded regime is entered by any contact at pre-gravity speed
at most `105 - 110/3`. -/
theorem Die.kin_step_entry (d : Die) (hy : d.pos.y ≤ 430) (hc : die_contact d)
    (hsmall : d.vel.y + 110/3 ≤ 105) :
    (Die.kin_step d).pos.y = 430 ∧ -(110/3) < (Die.kin_step d).vel.y ∧
      (Die.kin_step d).vel.y < 0 := by
  obtain ⟨h1, hv1, hneg, hlb, _⟩ := Die.kin_step_contact d hy hc
  refine ⟨h1, ?_, hneg⟩
  nlinarith

/-- The grounded regime is invariant, with `|vy|` at most `15323/1200 < 13`. -/
theorem Die.kin_step_grounded (d : Die) (hg : die_grounded d) :
    (Die.kin_step d).pos.y = 430 ∧ -(15323/1200) ≤ (Die.kin_step d).vel.y ∧
      (Die.kin_step d).vel.y < 0 := by
  obtain ⟨h1, h2, h3⟩ := hg
  have hc : die_contact d := by
    unfold die_contact
    rw [h1]
    nlinarith
  obtain ⟨hp, hv1, hneg, hlb, _⟩ := Die.kin_step_contact d (le_of_eq h1) hc
  refine ⟨hp, ?_, hneg⟩
  nlinarith

/-- Update-level energy agrees with the kinematic step. -/
theorem Die.update_energy (o : TickOracle) (d : Die)
    (ha : d.anim_active = false) (hp : d.parked = false) :
    die_energy (Die.update (1/60) o d) = die_energy (Die.kin_step d) := by
  have h := Die.update_pos_vel o d ha hp
  unfold die_energy
  rw [h.1, h.2]

/-- Update-level position and velocity projections. -/
theorem Die.update_pos_y (o : TickOracle) (d : Die)
    (ha : d.anim_active = false) (hp : d.parked = false) :
    (Die.update (1/60) o d).pos.y = (Die.kin_step d).pos.y := by
  rw [(Die.update_pos_vel o d ha hp).1]

theorem Die.update_vel_y (o : TickOracle) (d : Die)
    (ha : d.anim_active = false) (hp : d.parked = false) :
    (Die.update (1/60) o d).vel.y = (Die.kin_step d).vel.y := by
  rw [(Die.update_pos_vel o d ha hp).2]

theorem Die.update_vel_x_le (o : TickOracle) (d : Die)
    (ha : d.anim_active = false) (hp : d.parked = false) :
    |(Die.update (1/60) o d).vel.x| ≤ (199/200) * |d.vel.x| := by
  rw [(Die.update_pos_vel o d ha hp).2]
  exact Die.kin_step_vel_x_le d

/-- On a grounded tick with small horizontal speed the rest counter
increments. -/
theorem Die.update_counter_grounded (o : TickOracle) (d : Die)
    (ha : d.anim_active = false) (hp : d.parked = false)
    (hg : die_grounded d) (hvx : |d.vel.x| < 35) :
    (Die.update (1/60) o d).rest_counter = d.rest_counter + 1 := by
  obtain ⟨h1, h2, h3⟩ := Die.kin_step_grounded d hg
  rw [Die.update_rest_counter o d ha hp]
  rw [if_pos]
  refine ⟨?_, ?_, ?_⟩
  · rw [show REST_EPS = (35 : ℚ) by norm_num [REST_EPS]]
    rw [abs_lt]
    constructor <;> nlinarith
  · rw [show REST_EPS = (35 : ℚ) by norm_num [REST_EPS]]
    calc |(Die.kin_step d).vel.x| ≤ (199/200) * |d.vel.x| := Die.kin_step_vel_x_le d
      _ < 35 := by nlinarith [abs_nonneg d.vel.x]
  · rw [h1, ground_line_eq]
    norm_num

theorem Die.update_airborne (o : TickOracle) (d : Die)
    (ha : d.anim_active = false) (hp : d.parked = false) (hnc : ¬ die_contact d) :
    (Die.update (1/60) o d).pos.y = d.pos.y + (d.vel.y + 110/3) * (1/60) ∧
      die_energy (Die.update (1/60) o d) ≤ die_energy d - 6050/9 := by
  obtain ⟨h1, h2⟩ := Die.kin_step_airborne d hnc
  exact ⟨by rw [Die.update_pos_y o d ha hp]; exact h1,
    by rw [Die.update_energy o d ha hp]; exact h2⟩

theorem Die.update_airborne_vy (o : TickOracle) (d : Die)
    (ha : d.anim_active = false) (hp : d.parked = false) (hnc : ¬ die_contact d)
    (hvy : 0 ≤ d.vel.y) :
    (8557/10000) * (d.vel.y + 110/3) ≤ (Die.update (1/60) o d).vel.y ∧
      0 ≤ (Die.update (1/60) o d).vel.y := by
  obtain ⟨h1, h2⟩ := Die.kin_step_airborne_vy d hnc hvy
  rw [Die.update_vel_y o d ha hp]
  exact ⟨h1, h2⟩

theorem Die.update_contact_energy (o : TickOracle) (d : Die)
    (ha : d.anim_active = false) (hp : d.parked = false)
    (hy : d.pos.y ≤ 430) (hc : die_contact d) :
    die_energy (Die.update (1/60) o d) ≤ (49/400) * (d.vel.y + 110/3)^2 / 2 := by
  rw [Die.update_energy o d ha hp]
  exact (Die.kin_step_contact d hy hc).2.2.2.2

theorem Die.update_entry_grounded (o : TickOracle) (d : Die)
    (ha : d.anim_active = false) (hp : d.parked = false)
    (hy : d.pos.y ≤ 430) (hc : die_contact d) (hsmall : d.vel.y + 110/3 ≤ 105) :
    die_grounded (Die.update (1/60) o d) := by
  obtain ⟨h1, h2, h3⟩ := Die.kin_step_entry d hy hc hsmall
  have hpv := Die.update_pos_vel o d ha hp
  exact ⟨by rw [hpv.1]; exact h1, by rw [hpv.2]; exact h2, by rw [hpv.2]; exact h3⟩

theorem Die.update_grounded_step (o : TickOracle) (d : Die)
    (ha : d.anim_active = false) (hp : d.parked = false) (hg : die_grounded d) :
    die_grounded (Die.update (1/60) o d) := by
  obtain ⟨h1, h2, h3⟩ := Die.kin_step_grounded d hg
  have hpv := Die.update_pos_vel o d ha hp
  refine ⟨by rw [hpv.1]; exact h1, ?_, by rw [hpv.2]; exact h3⟩
  rw [hpv.2]
  nlinarith

theorem Die.update_pos_y_le (o : TickOracle) (d : Die)
    (ha : d.anim_active = false) (hp : d.parked = false) :
    (Die.update (1/60) o d).pos.y ≤ 430 := by
  rw [Die.update_pos_y o d ha hp]
  exact Die.kin_step_pos_y_le d

/-- Energy is non-negative on or above the ground line. -/
theorem die_energy_nonneg (d : Die) (hy : d.pos.y ≤ 430) : 0 ≤ die_energy d := by
  unfold die_energy
  nlinarith [sq_nonneg d.vel.y]

/-- Energy dominates the square of the vertical speed below the line. -/
theorem die_energy_ge_sq (d : Die) (hy : d.pos.y ≤ 430) :
    d.vel.y^2 / 2 ≤ die_energy d := by
  unfold die_energy
  nlinarith

/-! Sequence lemmas along `run_die`. -/

theorem run_die_flags (os : ℕ → TickOracle) (d0 : Die)
    (ha : d0.anim_active = false) (hp : d0.parked = false) :
    ∀ n, (run_die os d0 n).anim_active = false ∧ (run_die os d0 n).parked = false := by
  intro n
  induction n with
  | zero => exact ⟨ha, hp⟩
  | succ n ih => exact Die.update_flags (os n) _ ih.1 ih.2

theorem run_die_pos_y_le (os : ℕ → TickOracle) (d0 : Die)
    (ha : d0.anim_active = false) (hp : d0.parked = false) (hy : d0.pos.y ≤ 430) :
    ∀ n, (run_die os d0 n).pos.y ≤ 430 := by
  intro n
  cases n with
  | zero => exact hy
  | succ n =>
    obtain ⟨hfa, hfp⟩ := run_die_flags os d0 ha hp n
    exact Die.update_pos_y_le (os n) _ hfa hfp

theorem run_die_vel_x (os : ℕ → TickOracle) (d0 : Die)
    (ha : d0.anim_active = false) (hp : d0.parked = false) (hvx : |d0.vel.x| ≤ 240) :
    ∀ n, |(run_die os d0 n).vel.x| ≤ 240 * (199/200)^n := by
  intro n
  induction n with
  | zero => simpa using hvx
  | succ n ih =>
    obtain ⟨hfa, hfp⟩ := run_die_flags os d0 ha hp n
    calc |(run_die os d0 (n+1)).vel.x|
        ≤ (199/200) * |(run_die os d0 n).vel.x| := Die.update_vel_x_le (os n) _ hfa hfp
      _ ≤ (199/200) * (240 * (199/200)^n) := by nlinarith
      _ = 240 * (199/200)^(n+1) := by ring

theorem run_die_vel_x_small (os : ℕ → TickOracle) (d0 : Die)
    (ha : d0.anim_active = false) (hp : d0.parked = false) (hvx : |d0.vel.x| ≤ 240) :
    ∀ n, 385 ≤ n → |(run_die os d0 n).vel.x| < 35 := by
  intro n hn
  have h1 := run_die_vel_x os d0 ha hp hvx n
  have h2 : (240 : ℚ) * (199/200)^n ≤ 240 * (199/200)^385 := by
    have := pow_le_pow_of_le_one (by norm_num : (0:ℚ) ≤ 199/200)
      (by norm_num : (199/200 : ℚ) ≤ 1) hn
    nlinarith
  have h3 : (240 : ℚ) * (199/200)^385 < 35 := by norm_num
  linarith

/-- Lower-bound sequence for the vertical speed during the initial
fall (worst case: a wall bounce damps `vy` every tick). -/
def vy_lb : ℕ → ℚ
  | 0 => 0
  | n + 1 => (8557/10000) * (vy_lb n + 110/3)

theorem vy_lb_eight : (150 : ℚ) ≤ vy_lb 8 := by
  norm_num [vy_lb]

theorem run_die_fall_vy (os : ℕ → TickOracle) (d0 : Die)
    (ha : d0.anim_active = false) (hp : d0.parked = false) (hvy : 0 ≤ d0.vel.y) :
    ∀ n, (∀ t, t < n → ¬ die_contact (run_die os d0 t)) →
      vy_lb n ≤ (run_die os d0 n).vel.y ∧ 0 ≤ (run_die os d0 n).vel.y := by
  intro n
  induction n with
  | zero => exact fun _ => ⟨hvy, hvy⟩
  | succ n ih =>
    intro hnc
    have ihn := ih (fun t ht => hnc t (Nat.lt_succ_of_lt ht))
    obtain ⟨hfa, hfp⟩ := run_die_flags os d0 ha hp n
    obtain ⟨h1, h2⟩ := Die.update_airborne_vy (os n) _ hfa hfp
      (hnc n (Nat.lt_succ_self n)) ihn.2
    refine ⟨?_, h2⟩
    have hmono : vy_lb (n+1) ≤ (8557/10000) * ((run_die os d0 n).vel.y + 110/3) := by
      show (8557/10000) * (vy_lb n + 110/3) ≤ _
      nlinarith [ihn.1]
    show vy_lb (n+1) ≤ (Die.update (1/60) (os n) (run_die os d0 n)).vel.y
    linarith

theorem run_die_fall_vy_150 (os : ℕ → TickOracle) (d0 : Die)
    (ha : d0.anim_active = false) (hp : d0.parked = false) (hvy : 0 ≤ d0.vel.y) :
    ∀ k, (∀ t, t < 8 + k → ¬ die_contact (run_die os d0 t)) →
      (150 : ℚ) ≤ (run_die os d0 (8 + k)).vel.y := by
  intro k
  induction k with
  | zero =>
    intro hnc
    have h := run_die_fall_vy os d0 ha hp hvy 8 hnc
    have := vy_lb_eight
    linarith [h.1]
  | succ k ih =>
    intro hnc
    have ihk := ih (fun t ht => hnc t (by omega))
    obtain ⟨hfa, hfp⟩ := run_die_flags os d0 ha hp (8 + k)
    obtain ⟨h1, h2⟩ := Die.update_airborne_vy (os (8 + k)) _ hfa hfp
      (hnc (8 + k) (by omega)) (by linarith)
    have : run_die os d0 (8 + (k + 1)) = Die.update (1/60) (os (8 + k)) (run_die os d0 (8 + k)) := by
      show run_die os d0 ((8 + k) + 1) = _
      rfl
    rw [this]
    nlinarith

theorem run_die_fall_y (os : ℕ → TickOracle) (d0 : Die)
    (ha : d0.anim_active = false) (hp : d0.parked = false) (hvy : 0 ≤ d0.vel.y)
    (hy0 : d0.pos.y = 100) :
    ∀ n, (∀ t, t < n → ¬ die_contact (run_die os d0 t)) →
      (100 : ℚ) ≤ (run_die os d0 n).pos.y := by
  intro n
  induction n with
  | zero => exact fun _ => le_of_eq hy0.symm
  | succ n ih =>
    intro hnc
    have ihn := ih (fun t ht => hnc t (Nat.lt_succ_of_lt ht))
    obtain ⟨hfa, hfp⟩ := run_die_flags os d0 ha hp n
    have hvyn := (run_die_fall_vy os d0 ha hp hvy n
      (fun t ht => hnc t (Nat.lt_succ_of_lt ht))).2
    have h := (Die.update_airborne (os n) _ hfa hfp (hnc n (Nat.lt_succ_self n))).1
    show (100 : ℚ) ≤ (Die.update (1/60) (os n) (run_die os d0 n)).pos.y
    rw [h]
    nlinarith

theorem run_die_fall_y_growth (os : ℕ → TickOracle) (d0 : Die)
    (ha : d0.anim_active = false) (hp : d0.parked = false) (hvy : 0 ≤ d0.vel.y)
    (hy0 : d0.pos.y = 100) :
    ∀ k, (∀ t, t < 8 + k → ¬ die_contact (run_die os d0 t)) →
      (100 : ℚ) + k * (28/9) ≤ (run_die os d0 (8 + k)).pos.y := by
  intro k
  induction k with
  | zero =>
    intro hnc
    simpa using run_die_fall_y os d0 ha hp hvy hy0 8 hnc
  | succ k ih =>
    intro hnc
    have ihk := ih (fun t ht => hnc t (by omega))
    obtain ⟨hfa, hfp⟩ := run_die_flags os d0 ha hp (8 + k)
    have h150 := run_die_fall_vy_150 os d0 ha hp hvy k (fun t ht => hnc t (by omega))
    have h := (Die.update_airborne (os (8 + k)) _ hfa hfp (hnc (8 + k) (by omega))).1
    have hstep : run_die os d0 (8 + (k + 1)) =
        Die.update (1/60) (os (8 + k)) (run_die os d0 (8 + k)) := by
      show run_die os d0 ((8 + k) + 1) = _
      rfl
    rw [hstep, h]
    push_cast
    nlinarith

/-- Some tick at or before 114 is a contact tick. -/
theorem run_die_first_contact (os : ℕ → TickOracle) (d0 : Die)
    (ha : d0.anim_active = false) (hp : d0.parked = false) (hvy : 0 ≤ d0.vel.y)
    (hy0 : d0.pos.y = 100) :
    ∃ T, T ≤ 114 ∧ die_contact (run_die os d0 T) := by
  by_contra hno
  push_neg at hno
  have hnc : ∀ t, t < 8 + 107 → ¬ die_contact (run_die os d0 t) := by
    intro t ht
    exact hno t (by omega)
  have h1 := run_die_fall_y_growth os d0 ha hp hvy hy0 107 hnc
  have h2 := run_die_pos_y_le os d0 ha hp (by rw [hy0]; norm_num) (8 + 107)
  norm_num at h1
  linarith

theorem run_die_energy_pre (os : ℕ → TickOracle) (d0 : Die)
    (ha : d0.anim_active = false) (hp : d0.parked = false) :
    ∀ n, (∀ t, t < n → ¬ die_contact (run_die os d0 t)) →
      die_energy (run_die os d0 n) ≤ die_energy d0 := by
  intro n
  induction n with
  | zero => exact fun _ => le_refl _
  | succ n ih =>
    intro hnc
    have ihn := ih (fun t ht => hnc t (Nat.lt_succ_of_lt ht))
    obtain ⟨hfa, hfp⟩ := run_die_flags os d0 ha hp n
    have h := (Die.update_airborne (os n) _ hfa hfp (hnc n (Nat.lt_succ_self n))).2
    show die_energy (Die.update (1/60) (os n) (run_die os d0 n)) ≤ die_energy d0
    linarith

/-- One descent tick: as long as the tick is not an entry into the
grounded regime, the energy drops by at least `6050/9`. -/
theorem run_die_descent_step (os : ℕ → TickOracle) (d0 : Die)
    (ha : d0.anim_active = false) (hp : d0.parked = false) (n : ℕ)
    (hyn : (run_die os d0 n).pos.y ≤ 430)
    (hne : ¬ (die_contact (run_die os d0 n) ∧
      (run_die os d0 n).vel.y + 110/3 ≤ 105)) :
    die_energy (run_die os d0 (n+1)) ≤ die_energy (run_die os d0 n) - 6050/9 := by
  obtain ⟨hfa, hfp⟩ := run_die_flags os d0 ha hp n
  by_cases hc : die_contact (run_die os d0 n)
  · have hv1 : 105 < (run_die os d0 n).vel.y + 110/3 := by
      by_contra hle
      exact hne ⟨hc, le_of_not_lt hle⟩
    have h1 := Die.update_contact_energy (os n) _ hfa hfp hyn hc
    have h2 := die_energy_ge_sq _ hyn
    show die_energy (Die.update (1/60) (os n) (run_die os d0 n)) ≤ _
    nlinarith [sq_nonneg ((run_die os d0 n).vel.y - 205/3)]
  · have h := (Die.update_airborne (os n) _ hfa hfp hc).2
    exact h

theorem run_die_descent (os : ℕ → TickOracle) (d0 : Die)
    (ha : d0.anim_active = false) (hp : d0.parked = false) (hy : d0.pos.y ≤ 430) (m : ℕ) :
    ∀ j, (∀ t, m ≤ t → t < m + j → ¬ (die_contact (run_die os d0 t) ∧
        (run_die os d0 t).vel.y + 110/3 ≤ 105)) →
      die_energy (run_die os d0 (m + j)) ≤ die_energy (run_die os d0 m) - j * (6050/9) := by
  intro j
  induction j with
  | zero => intro _; simp
  | succ j ih =>
    intro hne
    have ihj := ih (fun t h1 h2 => hne t h1 (by omega))
    have hstep := run_die_descent_step os d0 ha hp (m + j)
      (run_die_pos_y_le os d0 ha hp hy (m + j))
      (hne (m + j) (by omega) (by omega))
    have : m + (j + 1) = (m + j) + 1 := by omega
    rw [this]
    push_cast
    linarith

/-- Entry into the grounded regime happens by tick 256. -/
theorem run_die_entry (os : ℕ → TickOracle) (d0 : Die)
    (ha : d0.anim_active = false) (hp : d0.parked = false)
    (hy0 : d0.pos.y = 100) (hvy0 : 0 ≤ d0.vel.y) (hvy90 : d0.vel.y ≤ 90) :
    ∃ e, e ≤ 256 ∧ die_contact (run_die os d0 e) ∧
      (run_die os d0 e).vel.y + 110/3 ≤ 105 := by
  have hy0' : d0.pos.y ≤ 430 := by rw [hy0]; norm_num
  obtain ⟨T0, hT0, hcT0⟩ := run_die_first_contact os d0 ha hp hvy0 hy0
  have hex : ∃ t, die_contact (run_die os d0 t) := ⟨T0, hcT0⟩
  set T := Nat.find hex with hTdef
  have hT : die_contact (run_die os d0 T) := Nat.find_spec hex
  have hmin : ∀ t, t < T → ¬ die_contact (run_die os d0 t) := fun t ht => Nat.find_min hex ht
  have hTle : T ≤ 114 := le_trans (Nat.find_le hcT0) hT0
  by_cases hTentry : (run_die os d0 T).vel.y + 110/3 ≤ 105
  · exact ⟨T, by omega, hT, hTentry⟩
  · push_neg at hTentry
    have hE0 : die_energy d0 ≤ 730050 := by
      unfold die_energy
      rw [hy0]
      nlinarith
    have hET : die_energy (run_die os d0 T) ≤ 730050 :=
      le_trans (run_die_energy_pre os d0 ha hp T hmin) hE0
    have hvyT : 0 ≤ (run_die os d0 T).vel.y :=
      (run_die_fall_vy os d0 ha hp hvy0 T hmin).2
    have hyT : (run_die os d0 T).pos.y ≤ 430 := run_die_pos_y_le os d0 ha hp hy0' T
    have hsq := die_energy_ge_sq _ hyT
    have hvyT2 : (run_die os d0 T).vel.y ≤ 1209 := by nlinarith
    obtain ⟨hfa, hfp⟩ := run_die_flags os d0 ha hp T
    have hE1 : die_energy (run_die os d0 (T+1)) ≤ 95100 := by
      have h := Die.update_contact_energy (os T) _ hfa hfp hyT hT
      show die_energy (Die.update (1/60) (os T) (run_die os d0 T)) ≤ _
      nlinarith
    by_contra hno
    push_neg at hno
    have hnoE : ∀ t, T + 1 ≤ t → t < T + 1 + 142 →
        ¬ (die_contact (run_die os d0 t) ∧ (run_die os d0 t).vel.y + 110/3 ≤ 105) := by
      intro t h1 h2 hcontra
      have h3 := hno t (by omega) hcontra.1
      linarith [hcontra.2]
    have hdesc := run_die_descent os d0 ha hp hy0' (T + 1) 142 hnoE
    have hnn : 0 ≤ die_energy (run_die os d0 (T + 1 + 142)) :=
      die_energy_nonneg _ (run_die_pos_y_le os d0 ha hp hy0' _)
    norm_num at hdesc
    linarith

/-- From the entry tick on, the die is grounded forever. -/
theorem run_die_grounded (os : ℕ → TickOracle) (d0 : Die)
    (ha : d0.anim_active = false) (hp : d0.parked = false)
    (hy : d0.pos.y ≤ 430) (e : ℕ)
    (hc : die_contact (run_die os d0 e))
    (hsmall : (run_die os d0 e).vel.y + 110/3 ≤ 105) :
    ∀ n, e + 1 ≤ n → die_grounded (run_die os d0 n) := by
  have hbase : die_grounded (run_die os d0 (e + 1)) := by
    obtain ⟨hfa, hfp⟩ := run_die_flags os d0 ha hp e
    exact Die.update_entry_grounded (os e) _ hfa hfp
      (run_die_pos_y_le os d0 ha hp hy e) hc hsmall
  intro n hn
  induction n with
  | zero => omega
  | succ n ih =>
    by_cases hn2 : e + 1 ≤ n
    · obtain ⟨hfa, hfp⟩ := run_die_flags os d0 ha hp n
      exact Die.update_grounded_step (os n) _ hfa hfp (ih hn2)
    · have : n + 1 = e + 1 := by omega
      rw [this]
      exact hbase

/-- The master termination bound: from the stated reset state the die
reveals within 600 ticks. -/
theorem run_die_settles (os : ℕ → TickOracle) (d0 : Die)
    (ha : d0.anim_active = false) (hp : d0.parked = false)
    (hy0 : d0.pos.y = 100) (hvy0 : 0 ≤ d0.vel.y) (hvy90 : d0.vel.y ≤ 90)
    (hvx : |d0.vel.x| ≤ 240) :
    (run_die os d0 600).revealed = true := by
  have hy0' : d0.pos.y ≤ 430 := by rw [hy0]; norm_num
  obtain ⟨e, hele, hce, hse⟩ := run_die_entry os d0 ha hp hy0 hvy0 hvy90
  have hgr := run_die_grounded os d0 ha hp hy0' e hce hse
  have hcount : ∀ k, k ≤ (run_die os d0 (385 + k)).rest_counter := by
    intro k
    induction k with
    | zero => exact Nat.zero_le _
    | succ k ih =>
      obtain ⟨hfa, hfp⟩ := run_die_flags os d0 ha hp (385 + k)
      have hgk : die_grounded (run_die os d0 (385 + k)) := hgr _ (by omega)
      have hvxk : |(run_die os d0 (385 + k)).vel.x| < 35 :=
        run_die_vel_x_small os d0 ha hp hvx (385 + k) (by omega)
      have hinc := Die.update_counter_grounded (os (385 + k)) _ hfa hfp hgk hvxk
      have hstep : run_die os d0 (385 + (k + 1)) =
          Die.update (1/60) (os (385 + k)) (run_die os d0 (385 + k)) := by
        show run_die os d0 ((385 + k) + 1) = _
        rfl
      rw [hstep, hinc]
      omega
  have hrev403 : (run_die os d0 403).revealed = true := by
    obtain ⟨hfa, hfp⟩ := run_die_flags os d0 ha hp 402
    have h18 : 18 ≤ (run_die os d0 403).rest_counter := hcount 18
    exact Die.update_revealed_of_counter (os 402) _ hfa hfp h18
  have hmono : ∀ n, 403 ≤ n → (run_die os d0 n).revealed = true := by
    intro n hn
    induction n with
    | zero => omega
    | succ n ih =>
      by_cases hn2 : 403 ≤ n
      · exact (Die.update_of_revealed (1/60) (os n) _ (ih hn2)).1
      · have : n + 1 = 403 := by omega
        rw [this]
        exact hrev403
  exact hmono 600 (by omega)

/-- C4: for every start position `(x, 100)` used by the callers of
`reset_roll`, every initial velocity, angle and spin within the
`reset_roll` ranges, and every random stream, iterating `Die.update`
at `dt = 1/60` reaches `revealed = true` within 600 ticks. -/
theorem C4_roll_terminates (d : Die) (x : ℚ) (ro : ResetOracle) (os : ℕ → TickOracle)
    (h1 : -240 ≤ ro.vx) (h2 : ro.vx ≤ 240) (h3 : 0 ≤ ro.vy) (h4 : ro.vy ≤ 90)
    (h5 : 0 ≤ ro.angle) (h6 : ro.angle ≤ 360) (h7 : -600 ≤ ro.spin) (h8 : ro.spin ≤ 600) :
    (run_die os (Die.reset_roll x 100 ro d) 600).revealed = true := by
  apply run_die_settles
  · rfl
  · rfl
  · rfl
  · exact h3
  · exact h4
  · exact abs_le.mpr ⟨h1, h2⟩

/-- Witness for C4: a concrete reset die settles within 600 ticks. -/
theorem C4_witness :
    (run_die (fun _ => ⟨1, 0, 1, 1⟩)
      (Die.reset_roll 220 100 ⟨240, 90, 180, 500, 6⟩ default) 600).revealed = true :=
  C4_roll_terminates default 220 ⟨240, 90, 180, 500, 6⟩ (fun _ => ⟨1, 0, 1, 1⟩)
    (by norm_num) (by norm_num) (by norm_num) (by norm_num)
    (by norm_num) (by norm_num) (by norm_num) (by norm_num)
